import Mathlib

/-!
Verification development for the FMOD wrapper repository.

The definitions below are a shallow embedding of the registry, bank
management, listener validation and suspend logic found in
`src/src/domside/index.js` (the `FMODManager` class and the `FMODWrapper`
class).  JavaScript `Map`s are modelled as association lists that keep
insertion order (`Map.set` replaces in place or appends, `Map.delete`
removes the entry), JavaScript `Set`s as duplicate-free lists with the
same append-on-add behaviour, and engine (FMOD) calls as oracle
parameters supplying the result codes the engine would return.
-/

namespace FmodJS

section AssocList

variable {α : Type} {β : Type} [DecidableEq α]

/-- Lookup in an association list, first matching key wins (JS `Map.get`). -/
def alookup (k : α) : List (α × β) → Option β
  | [] => none
  | (a, b) :: l => if a = k then some b else alookup k l

/-- JS `Map.set`: replace the first entry with this key in place, else append. -/
def aset (k : α) (v : β) : List (α × β) → List (α × β)
  | [] => [(k, v)]
  | (a, b) :: l => if a = k then (k, v) :: l else (a, b) :: aset k v l

/-- JS `Map.delete`: drop the first entry with this key. -/
def adel (k : α) : List (α × β) → List (α × β)
  | [] => []
  | (a, b) :: l => if a = k then l else (a, b) :: adel k l

/-- The keys of the association list are pairwise distinct. -/
def NodupKeys (l : List (α × β)) : Prop := (l.map Prod.fst).Nodup

instance (l : List (α × β)) : Decidable (NodupKeys l) := by
  unfold NodupKeys; infer_instance

end AssocList

/-! ## Data model of the instance registry (FMODWrapper constructor) -/

/-- FMOD playback states (`FMOD.STUDIO_PLAYBACK_*`). -/
inductive PlaybackState where
  | playing
  | sustaining
  | stopped
  | starting
  | stopping
deriving DecidableEq

/-- Result of `instance.getPlaybackState(out)`: either a non-OK error code,
or OK together with the reported state. -/
inductive QueryRes where
  | err
  | ok (s : PlaybackState)
deriving DecidableEq

/-- Per-instance record held in `this.instances`
(`{ instance, name, tags: Set, released, autoRelease }`).  The engine
handle is an opaque natural number; `none` models a missing handle
(the `!data.instance` guard in `_cleanupInstances`). -/
structure InstData where
  inst : Option Nat
  name : String
  tags : List String
  released : Bool
  autoRelease : Bool
deriving DecidableEq

/-- Registry state: `this.instances` (id to data, insertion ordered),
`this.tagIndex` (tag to set of ids) and `this.nextInstanceId`. -/
structure WrapperSt where
  instances : List (Nat × InstData)
  tagIndex : List (String × List Nat)
  nextInstanceId : Nat
deriving DecidableEq

/-- State right after the FMODWrapper constructor ran. -/
def initialWrapperSt : WrapperSt := ⟨[], [], 1⟩

/-- JS `String.prototype.trim`: drop whitespace from both ends. -/
def jsTrim (s : String) : String :=
  String.mk
    (((s.data.dropWhile Char.isWhitespace).reverse.dropWhile
        Char.isWhitespace).reverse)

/-- Accumulating splitter behind `splitWs`: walks the characters, grouping
maximal non-whitespace runs. -/
def splitWsAux : List Char → List Char → List String
  | [], acc => if acc = [] then [] else [String.mk acc.reverse]
  | c :: cs, acc =>
    if c.isWhitespace then
      if acc = [] then splitWsAux cs []
      else String.mk acc.reverse :: splitWsAux cs []
    else splitWsAux cs (c :: acc)

/-- `tags.split(/\s+/).filter((t) => t.trim())`: split on whitespace runs,
drop empty pieces — equivalently, the maximal non-whitespace runs. -/
def splitWs (s : String) : List String := splitWsAux s.data []

/-- Insertion-ordered de-duplication, modelling filling a JS `Set`. -/
def dedupFirst : List String → List String :=
  go []
where
  go (seen : List String) : List String → List String
    | [] => []
    | t :: ts => if t ∈ seen then go seen ts else t :: go (t :: seen) ts

/-- Tag-string parsing done by `instantiateEvent`: split on whitespace,
drop blanks, collect into a `Set` (pieces of a whitespace split contain no
whitespace, so the `t.trim()` applied by the source is the identity). -/
def parseTags (s : String) : List String := dedupFirst (splitWs s)

/-- `if (!this.tagIndex.has(tag)) this.tagIndex.set(tag, new Set());
this.tagIndex.get(tag).add(id);` -/
def addToBucket (t : String) (id : Nat) (ti : List (String × List Nat)) :
    List (String × List Nat) :=
  match alookup t ti with
  | none => aset t [id] ti
  | some b => aset t (if id ∈ b then b else b ++ [id]) ti

/-! ## FMODWrapper.instantiateEvent -/

/-- `FMODWrapper.instantiateEvent(name, tags)`.  `engineCreate` is the
oracle for the two engine steps: `none` when `_getEventDescription` or
`createInstance` fails (the method returns `null` and changes nothing),
`some h` when the engine produced instance handle `h`. -/
def instantiateEvent (name tags : String) (engineCreate : Option Nat)
    (st : WrapperSt) : Option Nat × WrapperSt :=
  match engineCreate with
  | none => (none, st)
  | some h =>
    let id := st.nextInstanceId
    let tagSet := parseTags tags
    let d : InstData := ⟨some h, name, tagSet, false, false⟩
    let ti := tagSet.foldl (fun a t => addToBucket t id a) st.tagIndex
    (some id, { instances := aset id d st.instances,
                tagIndex := ti,
                nextInstanceId := id + 1 })

/-! ## FMODWrapper._getMatchingInstances -/

/-- The duck-typed `tag` argument: a JS number, a JS string, or
null/undefined. -/
inductive TagSel where
  | num (id : Nat)
  | str (s : String)
  | null
deriving DecidableEq

/-- The `!name || data.name === name` filter; a JS falsy name (null or
the empty string) matches everything. -/
def nameMatches (name : Option String) (d : InstData) : Bool :=
  match name with
  | none => true
  | some n => if n = "" then true else d.name == n

/-- The final loop of `_getMatchingInstances`: every not-released
instance passing the name filter. -/
def liveMatching (name : Option String) (st : WrapperSt) :
    List (Nat × InstData) :=
  st.instances.filter (fun p => !p.2.released && nameMatches name p.2)

/-- `FMODWrapper._getMatchingInstances(name, tag)`, three-way dispatch on
the type of `tag`. -/
def getMatchingInstances (name : Option String) (tag : TagSel)
    (st : WrapperSt) : List (Nat × InstData) :=
  match tag with
  | .num id =>
    match alookup id st.instances with
    | some d =>
      if !d.released && nameMatches name d then [(id, d)] else []
    | none => []
  | .str s =>
    if jsTrim s ≠ "" then
      match alookup (jsTrim s) st.tagIndex with
      | some b =>
        b.filterMap (fun id =>
          match alookup id st.instances with
          | some d =>
            if !d.released && nameMatches name d then some (id, d) else none
          | none => none)
      | none => []
    else liveMatching name st
  | .null => liveMatching name st

/-! ## FMODWrapper._removeInstance -/

/-- Per-tag part of `_removeInstance` (also the bucket update of
`removeTags`): drop `id` from the bucket of `t`, deleting the bucket when
it becomes empty. -/
def dropFromBucket (id : Nat) (ti : List (String × List Nat)) (t : String) :
    List (String × List Nat) :=
  match alookup t ti with
  | none => ti
  | some b =>
    if b.erase id = [] then adel t ti else aset t (b.erase id) ti

/-- `FMODWrapper._removeInstance(id)`. -/
def removeInstance (id : Nat) (st : WrapperSt) : WrapperSt :=
  match alookup id st.instances with
  | none => st
  | some d =>
    { st with
      tagIndex := d.tags.foldl (dropFromBucket id) st.tagIndex,
      instances := adel id st.instances }

/-! ## FMODWrapper.addTags / removeTags -/

/-- Body of the `addTags` loop for a single (already trimmed) tag. -/
def addTag1 (id : Nat) (t : String) (st : WrapperSt) : WrapperSt :=
  match alookup id st.instances with
  | none => st
  | some d =>
    if t ∈ d.tags then st
    else
      { st with
        instances := aset id { d with tags := d.tags ++ [t] } st.instances,
        tagIndex := addToBucket t id st.tagIndex }

/-- `FMODWrapper.addTags(id, tags)`. -/
def addTags (id : Nat) (tags : String) (st : WrapperSt) : WrapperSt :=
  match alookup id st.instances with
  | none => st
  | some _ => (splitWs tags).foldl (fun s t => addTag1 id t s) st

/-- Body of the `removeTags` loop for a single (already trimmed) tag. -/
def removeTag1 (id : Nat) (t : String) (st : WrapperSt) : WrapperSt :=
  match alookup id st.instances with
  | none => st
  | some d =>
    if t ∈ d.tags then
      { st with
        instances := aset id { d with tags := d.tags.erase t } st.instances,
        tagIndex := dropFromBucket id st.tagIndex t }
    else st

/-- `FMODWrapper.removeTags(id, tags)`. -/
def removeTags (id : Nat) (tags : String) (st : WrapperSt) : WrapperSt :=
  match alookup id st.instances with
  | none => st
  | some _ => (splitWs tags).foldl (fun s t => removeTag1 id t s) st

/-! ## FMODWrapper.stopEvent and startEvent -/

/-- `data.instance.release(); data.released = true;` applied through the
identity map. -/
def setReleasedOn (st : WrapperSt) (id : Nat) : WrapperSt :=
  match alookup id st.instances with
  | none => st
  | some d =>
    { st with instances := aset id { d with released := true } st.instances }

/-- `FMODWrapper.stopEvent(name, tag, allowFadeOut, release)`: stops every
match (engine side effect, no registry change) and, when `release` is
set, releases each match and marks it released.  `allowFadeOut` only
selects the engine stop mode. -/
def stopEvent (name : Option String) (tag : TagSel)
    (_allowFadeOut rel : Bool) (st : WrapperSt) : WrapperSt :=
  let ms := getMatchingInstances name tag st
  if rel then ms.foldl (fun s p => setReleasedOn s p.1) st else st

/-- `FMODWrapper.startEvent(name, tags, destroyWhenStopped)`.  Returns the
produced id, the new state, and the list of engine handles on which
`start()` was invoked.  `startOk` is the oracle for the engine `start()`
result. -/
def startEvent (name tags : String) (engineCreate : Option Nat)
    (startOk : Bool) (destroyWhenStopped : Bool) (st : WrapperSt) :
    Option Nat × WrapperSt × List Nat :=
  match instantiateEvent name tags engineCreate st with
  | (none, st1) => (none, st1, [])
  | (some id, st1) =>
    match alookup id st1.instances with
    | none => (none, st1, [])
    | some d =>
      let d1 := { d with autoRelease := destroyWhenStopped }
      let st2 := { st1 with instances := aset id d1 st1.instances }
      let started := d.inst.getD 0
      if startOk then (some id, st2, [started])
      else (none, removeInstance id st2, [started])

/-! ## FMODWrapper._cleanupInstances -/

/-- Is the entry queued for removal by the `_cleanupInstances` scan. -/
def remB (query : Nat → QueryRes) (d : InstData) : Bool :=
  d.released ||
    (match d.inst with
     | none => true
     | some h =>
       match query h with
       | .err => true
       | .ok s => decide (s = .stopped) && d.autoRelease)

/-- How the scan mutates an entry (`data.released = true` on the error and
auto-release branches). -/
def markT (query : Nat → QueryRes) (d : InstData) : InstData :=
  if d.released then d
  else
    match d.inst with
    | none => d
    | some h =>
      match query h with
      | .err => { d with released := true }
      | .ok s =>
        if decide (s = .stopped) && d.autoRelease then { d with released := true }
        else d

/-- The scan loop of `_cleanupInstances`: walks the identity map in
order, marks entries released where the source does, and accumulates
`toRemove`. -/
def cleanupScan (query : Nat → QueryRes) :
    List (Nat × InstData) → List (Nat × InstData) × List Nat
  | [] => ([], [])
  | (id, d) :: rest =>
    let r := cleanupScan query rest
    if d.released then ((id, d) :: r.1, id :: r.2)
    else
      match d.inst with
      | none => ((id, d) :: r.1, id :: r.2)
      | some h =>
        match query h with
        | .err => ((id, { d with released := true }) :: r.1, id :: r.2)
        | .ok s =>
          if decide (s = .stopped) && d.autoRelease then
            ((id, { d with released := true }) :: r.1, id :: r.2)
          else ((id, d) :: r.1, r.2)

/-- `FMODWrapper._cleanupInstances()`: scan, then
`for (const id of toRemove) this._removeInstance(id)`. -/
def cleanupInstances (query : Nat → QueryRes) (st : WrapperSt) : WrapperSt :=
  let r := cleanupScan query st.instances
  r.2.foldl (fun s i => removeInstance i s) { st with instances := r.1 }

/-! ## Operation sequences over the registry -/

/-- One registry operation, with the engine responses it consumed. -/
inductive Op where
  | instantiate (name tags : String) (engineCreate : Option Nat)
  | addTagsOp (id : Nat) (tags : String)
  | removeTagsOp (id : Nat) (tags : String)
  | stopEventOp (name : Option String) (tag : TagSel) (allowFadeOut rel : Bool)
  | startEventOp (name tags : String) (engineCreate : Option Nat)
      (startOk : Bool) (destroyWhenStopped : Bool)
  | updateOp (query : Nat → QueryRes)

/-- Apply one operation to the registry state. -/
def applyOp (st : WrapperSt) : Op → WrapperSt
  | .instantiate n t e => (instantiateEvent n t e st).2
  | .addTagsOp id t => addTags id t st
  | .removeTagsOp id t => removeTags id t st
  | .stopEventOp n tg f r => stopEvent n tg f r st
  | .startEventOp n t e ok dws => (startEvent n t e ok dws st).2.1
  | .updateOp q => cleanupInstances q st

/-- Run a sequence of operations from the freshly constructed wrapper. -/
def runOps (ops : List Op) : WrapperSt := ops.foldl applyOp initialWrapperSt

/-! ## The bidirectional consistency invariant (spec section 3) -/

/-- The invariant claimed by the spec: every tag of every instance has a
tag-index bucket containing that id, and every id in any bucket is in the
identity map carrying that tag. -/
def Consistent (st : WrapperSt) : Prop :=
  (∀ p ∈ st.instances, ∀ t ∈ p.2.tags,
     ∃ q ∈ st.tagIndex, q.1 = t ∧ p.1 ∈ q.2) ∧
  (∀ q ∈ st.tagIndex, ∀ id ∈ q.2,
     ∃ p ∈ st.instances, p.1 = id ∧ q.1 ∈ p.2.tags)

instance (st : WrapperSt) : Decidable (Consistent st) := by
  unfold Consistent; infer_instance

/-- Decidable well-formedness of the two maps: distinct keys, buckets
nonempty and duplicate free, instance tag sets duplicate free, ids below
the id counter. -/
def WFst (st : WrapperSt) : Prop :=
  NodupKeys st.instances ∧ NodupKeys st.tagIndex ∧
  (∀ q ∈ st.tagIndex, q.2 ≠ [] ∧ q.2.Nodup) ∧
  (∀ p ∈ st.instances, p.2.tags.Nodup ∧ p.1 < st.nextInstanceId)

instance (st : WrapperSt) : Decidable (WFst st) := by
  unfold WFst; infer_instance

/-! ## FMODManager.loadBank (the `load-bank` message path)

`FMODManager.loadBank` awaits `fetchUrlAsInt8Array`, then calls the
engine once through `wrapper.loadBankMemory`, treats
`ERR_EVENT_ALREADY_LOADED` as a benign return, asserts any other error,
awaits the bank loading state and only then sets `loaded = true`.  The
two `await`s are genuine suspension points, so two calls for the same
bank config can interleave.  The model below keeps exactly the pieces
that decide claims C2 and C4: the `loaded` flag of the bank config,
whether the engine already holds the bank, and how many engine load
calls were issued. -/

/-- Shared state seen by concurrent `FMODManager.loadBank` calls on the
same bank config. -/
structure MgrBankSt where
  loaded : Bool
  engineHasBank : Bool
  engineLoadCalls : Nat
deriving DecidableEq

/-- Where a suspended `FMODManager.loadBank` call stands: before the
`loaded` check, resumed after the fetch, resumed after the
loading-state poll, or returned. -/
inductive MgrPhase where
  | start
  | afterFetch
  | afterAwait
  | done (ok : Bool)
deriving DecidableEq

/-- One resumption of a `FMODManager.loadBank` call.  `start`: the
`bankOrName.loaded` early return, else begin the fetch.  `afterFetch`:
the single `loadBankMemory` engine call; `ERR_EVENT_ALREADY_LOADED`
returns the bank as-is, success records the handle and awaits the
loading state.  `afterAwait`: set `loaded = true` and return. -/
def mgrLoadStep (g : MgrBankSt) (ph : MgrPhase) : MgrBankSt × MgrPhase :=
  match ph with
  | .start => if g.loaded then (g, .done true) else (g, .afterFetch)
  | .afterFetch =>
    let g1 := { g with engineLoadCalls := g.engineLoadCalls + 1 }
    if g.engineHasBank then (g1, .done true)
    else ({ g1 with engineHasBank := true }, .afterAwait)
  | .afterAwait => ({ g with loaded := true }, .done true)
  | .done b => (g, .done b)

/-- Interleave two `loadBank` calls for the same bank: `false` resumes
the first caller, `true` the second. -/
def mgrRunSched (s : MgrBankSt × MgrPhase × MgrPhase) :
    List Bool → MgrBankSt × MgrPhase × MgrPhase
  | [] => s
  | c :: cs =>
    if c then
      let r := mgrLoadStep s.1 s.2.2
      mgrRunSched (r.1, s.2.1, r.2) cs
    else
      let r := mgrLoadStep s.1 s.2.1
      mgrRunSched (r.1, r.2, s.2.2) cs

/-! ## FMODWrapper.loadBank (the coalescing dispatch) -/

/-- A record of `FMODWrapper.banks`:
`{ handle, loaded, loading, promise }`; the promise is identified by a
number so that two callers can be seen to await the same one. -/
structure WBankData where
  handle : Option Nat
  loaded : Bool
  loading : Bool
  promiseId : Nat
deriving DecidableEq

/-- What a `FMODWrapper.loadBank` call does before any engine work:
resolve at once (`existing.loaded`), chain onto the in-flight promise
(`existing.loading`), or start a fresh load. -/
inductive WLoadOutcome where
  | resolveNow
  | chainTo (promiseId : Nat)
  | startLoad
deriving DecidableEq

/-- The dispatch at the top of `FMODWrapper.loadBank(bankName)`. -/
def wrapperLoadBankDispatch (banks : List (String × WBankData))
    (bankName : String) : WLoadOutcome :=
  match alookup bankName banks with
  | some ex =>
    if ex.loaded then .resolveNow
    else if ex.loading then .chainTo ex.promiseId
    else .startLoad
  | none => .startLoad

/-- Engine load calls made by each dispatch outcome: only `startLoad`
reaches `system.loadBankFile`. -/
def wEngineLoadCalls : WLoadOutcome → Nat
  | .startLoad => 1
  | _ => 0

/-! ## FMODManager.loadBank error handling (claim C4) -/

/-- Engine response to `wrapper.loadBankMemory`. -/
inductive EngineLoadRes where
  | ok (handle : Nat)
  | alreadyLoaded
  | fail (code : Nat)
deriving DecidableEq

/-- The bank config record (`{ ..., loaded, bankHandle }`). -/
structure BankCfg where
  loaded : Bool
  bankHandle : Option Nat
deriving DecidableEq

/-- Did `FMODManager.loadBank` return normally or propagate the assert
error to the caller. -/
inductive MgrLoadOutcome where
  | returnedBank
  | threw
deriving DecidableEq

/-- `FMODManager.loadBank` as a function of the engine result for one
un-interleaved call: the early `loaded` return, the
`ERR_EVENT_ALREADY_LOADED` branch (logs and returns the bank without
touching it), the `assert` throw, and the success path that stores the
handle, awaits the loading state and sets `loaded`. -/
def managerLoadBankResult (cfg : BankCfg) (e : EngineLoadRes) :
    BankCfg × MgrLoadOutcome :=
  if cfg.loaded then (cfg, .returnedBank)
  else
    match e with
    | .alreadyLoaded => (cfg, .returnedBank)
    | .fail _ => (cfg, .threw)
    | .ok h => ({ loaded := true, bankHandle := some h }, .returnedBank)

/-! ## FMODManager.setListener3DAttributes / setNbListeners (claim C7) -/

/-- A JavaScript number as far as the validation code observes it: its
`isFinite` status plus an opaque payload compared only for identity. -/
structure JsNum where
  finite : Bool
  val : Int
deriving DecidableEq

/-- The seventeen arguments after `id`. -/
structure Attr3D where
  x : JsNum
  y : JsNum
  z : JsNum
  vx : JsNum
  vy : JsNum
  vz : JsNum
  fx : JsNum
  fy : JsNum
  fz : JsNum
  ux : JsNum
  uy : JsNum
  uz : JsNum
  hasSeparateAttenuationPosition : Bool
  ax : JsNum
  ay : JsNum
  az : JsNum
deriving DecidableEq

/-- The `values` array the validation loop walks: the twelve attributes,
plus the attenuation position when the flag is set. -/
def checkedValues (a : Attr3D) : List JsNum :=
  [a.x, a.y, a.z, a.vx, a.vy, a.vz, a.fx, a.fy, a.fz, a.ux, a.uy, a.uz] ++
    (if a.hasSeparateAttenuationPosition then [a.ax, a.ay, a.az] else [])

/-- Observable outcome of `FMODManager.setListener3DAttributes`: the not
ready warn-return, the two log-and-return rejections (no engine call, no
throw), or the forwarded engine call carrying the arguments. -/
inductive ListenerCallResult where
  | notReady
  | rejectedId
  | rejectedNonFinite
  | forwarded (id : Int) (a : Attr3D)
deriving DecidableEq

/-- `FMODManager.setListener3DAttributes(id, ...)`: the wrapper/loaded
guard, the `id < 0 || id >= this._numListeners` check, the finiteness
loop, then the forward to the wrapper with the same values. -/
def setListener3DAttributes (ready : Bool) (numListeners : Int) (id : Int)
    (a : Attr3D) : ListenerCallResult :=
  if !ready then .notReady
  else if id < 0 ∨ numListeners ≤ id then .rejectedId
  else if (checkedValues a).any (fun v => !v.finite) then .rejectedNonFinite
  else .forwarded id a

/-- Listener bookkeeping of FMODManager (`_numListeners`, set to 1 in the
constructor, updated by `setNbListeners` when the wrapper call does not
throw). -/
structure ListenerSt where
  hasWrapper : Bool
  numListeners : Int
  listenersInitialized : Bool
deriving DecidableEq

/-- `FMODManager.setNbListeners(nb)`: records `nb` as the new bound when
the wrapper is present and the engine call succeeds. -/
def setNbListeners (st : ListenerSt) (engineOk : Bool) (nb : Int) :
    ListenerSt :=
  if !st.hasWrapper then st
  else if engineOk then
    { st with numListeners := nb, listenersInitialized := true }
  else st

/-! ## FMODWrapper.waitForEventStop (claim C8) -/

/-- Result of `waitForEventStop`: the already-resolved
`Promise.resolve()` returned on an empty match, or a `Promise.all` that
waits for a stopped callback from each matched id. -/
inductive WaitStopResult where
  | immediateResolve
  | waitForAll (ids : List Nat)
deriving DecidableEq

/-- `FMODWrapper.waitForEventStop(name, tag)`. -/
def waitForEventStop (name : Option String) (tag : TagSel)
    (st : WrapperSt) : WaitStopResult :=
  let ms := getMatchingInstances name tag st
  if ms.length = 0 then .immediateResolve
  else .waitForAll (ms.map Prod.fst)

/-! ## FMODManager.setSuspended (claim C10) -/

/-- The manager state `setSuspended` reads: whether `this.wrapper` is
set, and `this.lastSuspendTime` (0 from the constructor). -/
structure SuspendSt where
  hasWrapper : Bool
  lastSuspendTime : Int
deriving DecidableEq

/-- Manager state right after the constructor: no wrapper yet,
`lastSuspendTime = 0`. -/
def initialSuspendSt : SuspendSt := ⟨false, 0⟩

/-- `FMODManager.setSuspended(suspended, time)`: drop the call when no
wrapper or `time <= this.lastSuspendTime`; otherwise record `time` and
forward the suspend/resume request (`some suspended`) to the wrapper. -/
def setSuspended (st : SuspendSt) (suspended : Bool) (time : Int) :
    SuspendSt × Option Bool :=
  if !st.hasWrapper then (st, none)
  else if time ≤ st.lastSuspendTime then (st, none)
  else ({ st with lastSuspendTime := time }, some suspended)

/-! ## FMODWrapper.getAllInstances / getInstanceInfo (claim C9) -/

/-- `Array.from(this.instances.keys()).filter((id) =>
!this.instances.get(id).released)`. -/
def getAllInstances (st : WrapperSt) : List Nat :=
  (st.instances.map Prod.fst).filter (fun id =>
    match alookup id st.instances with
    | some d => !d.released
    | none => false)

/-- The object literal returned by `getInstanceInfo`. -/
structure InstInfo where
  id : Nat
  name : String
  tags : List String
  autoRelease : Bool
deriving DecidableEq

/-- `FMODWrapper.getInstanceInfo(id)`: `null` when unknown or released. -/
def getInstanceInfo (id : Nat) (st : WrapperSt) : Option InstInfo :=
  match alookup id st.instances with
  | none => none
  | some d =>
    if d.released then none
    else some ⟨id, d.name, d.tags, d.autoRelease⟩

/-! ## Lemmas about the association list operations -/

section AssocListLemmas

variable {α : Type} {β : Type} [DecidableEq α]

theorem alookup_aset_self (k : α) (v : β) (l : List (α × β)) :
    alookup k (aset k v l) = some v := by
  induction l with
  | nil => simp [aset, alookup]
  | cons hd tl ih =>
    obtain ⟨a, b⟩ := hd
    by_cases h : a = k
    · simp [aset, alookup, h]
    · simp [aset, alookup, h, ih]

theorem alookup_aset_ne (k k' : α) (v : β) (l : List (α × β)) (h : k' ≠ k) :
    alookup k' (aset k v l) = alookup k' l := by
  have h2 : ¬ k = k' := fun e => h e.symm
  induction l with
  | nil => simp [aset, alookup, h2]
  | cons hd tl ih =>
    obtain ⟨a, b⟩ := hd
    by_cases ha : a = k
    · subst ha
      simp [aset, alookup, h2]
    · simp only [aset, if_neg ha, alookup]
      by_cases ha' : a = k' <;> simp [ha', ih]

theorem alookup_adel_ne (k k' : α) (l : List (α × β)) (h : k' ≠ k) :
    alookup k' (adel k l) = alookup k' l := by
  have h2 : ¬ k = k' := fun e => h e.symm
  induction l with
  | nil => simp [adel]
  | cons hd tl ih =>
    obtain ⟨a, b⟩ := hd
    by_cases ha : a = k
    · subst ha
      simp [adel, alookup, h2]
    · simp only [adel, if_neg ha, alookup]
      by_cases ha' : a = k' <;> simp [ha', ih]

theorem keys_adel_subset (k : α) (l : List (α × β)) :
    ((adel k l).map Prod.fst) ⊆ l.map Prod.fst := by
  induction l with
  | nil => simp [adel]
  | cons hd tl ih =>
    obtain ⟨a, b⟩ := hd
    by_cases ha : a = k
    · simp only [adel, if_pos ha, List.map_cons]
      intro x hx
      exact List.mem_cons_of_mem _ hx
    · simp only [adel, if_neg ha, List.map_cons]
      intro x hx
      rcases List.mem_cons.mp hx with h1 | h1
      · exact List.mem_cons.mpr (Or.inl h1)
      · exact List.mem_cons.mpr (Or.inr (ih h1))

theorem nodupKeys_adel (k : α) (l : List (α × β)) (h : NodupKeys l) :
    NodupKeys (adel k l) := by
  induction l with
  | nil => simpa [adel] using h
  | cons hd tl ih =>
    obtain ⟨a, b⟩ := hd
    unfold NodupKeys at h ⊢
    simp only [List.map_cons, List.nodup_cons] at h
    by_cases ha : a = k
    · simp only [adel, if_pos ha]
      exact h.2
    · simp only [adel, if_neg ha, List.map_cons, List.nodup_cons]
      exact ⟨fun hm => h.1 (keys_adel_subset k tl hm), ih h.2⟩

theorem not_mem_keys_adel (k : α) (l : List (α × β)) (h : NodupKeys l) :
    k ∉ (adel k l).map Prod.fst := by
  induction l with
  | nil => simp [adel]
  | cons hd tl ih =>
    obtain ⟨a, b⟩ := hd
    unfold NodupKeys at h
    simp only [List.map_cons, List.nodup_cons] at h
    by_cases ha : a = k
    · simp only [adel, if_pos ha]
      subst ha
      exact h.1
    · simp only [adel, if_neg ha, List.map_cons, List.mem_cons, not_or]
      exact ⟨fun e => ha e.symm, ih h.2⟩

theorem alookup_eq_none_of_not_mem_keys {k : α} {l : List (α × β)}
    (h : k ∉ l.map Prod.fst) : alookup k l = none := by
  induction l with
  | nil => rfl
  | cons hd tl ih =>
    obtain ⟨a, b⟩ := hd
    simp only [List.map_cons, List.mem_cons, not_or] at h
    have ha : ¬ a = k := fun e => h.1 e.symm
    simp only [alookup, if_neg ha]
    exact ih h.2

theorem alookup_adel_self (k : α) (l : List (α × β)) (h : NodupKeys l) :
    alookup k (adel k l) = none :=
  alookup_eq_none_of_not_mem_keys (not_mem_keys_adel k l h)

theorem keys_aset (k : α) (v : β) (l : List (α × β)) :
    (aset k v l).map Prod.fst =
      if k ∈ l.map Prod.fst then l.map Prod.fst else l.map Prod.fst ++ [k] := by
  induction l with
  | nil => simp [aset]
  | cons hd tl ih =>
    obtain ⟨a, b⟩ := hd
    by_cases ha : a = k
    · subst ha
      simp [aset]
    · have hne : ¬ k = a := fun e => ha e.symm
      by_cases hm : k ∈ tl.map Prod.fst <;>
        simp [aset, ha, hne, hm, ih]

theorem nodupKeys_aset (k : α) (v : β) (l : List (α × β)) (h : NodupKeys l) :
    NodupKeys (aset k v l) := by
  unfold NodupKeys at h ⊢
  rw [keys_aset]
  by_cases hm : k ∈ l.map Prod.fst
  · simpa [hm] using h
  · simp only [hm, if_false]
    rw [List.nodup_append]
    refine ⟨h, List.nodup_singleton k, fun x hx hk => ?_⟩
    rw [List.mem_singleton] at hk
    subst hk
    exact hm hx

theorem mem_of_alookup_eq_some {k : α} {v : β} {l : List (α × β)}
    (h : alookup k l = some v) : (k, v) ∈ l := by
  induction l with
  | nil => simp [alookup] at h
  | cons hd tl ih =>
    obtain ⟨a, b⟩ := hd
    by_cases ha : a = k
    · subst ha
      simp only [alookup, if_pos rfl] at h
      have hb : b = v := by simpa using h
      subst hb
      exact List.mem_cons_self _ _
    · simp only [alookup, if_neg ha] at h
      exact List.mem_cons_of_mem _ (ih h)

theorem alookup_eq_some_of_mem {k : α} {v : β} {l : List (α × β)}
    (hnd : NodupKeys l) (h : (k, v) ∈ l) : alookup k l = some v := by
  induction l with
  | nil => simp at h
  | cons hd tl ih =>
    obtain ⟨a, b⟩ := hd
    unfold NodupKeys at hnd
    simp only [List.map_cons, List.nodup_cons] at hnd
    rcases List.mem_cons.mp h with heq | hmem
    · simp only [Prod.mk.injEq] at heq
      obtain ⟨h1, h2⟩ := heq
      subst h1
      subst h2
      simp [alookup]
    · by_cases ha : a = k
      · subst ha
        exact absurd (List.mem_map.mpr ⟨(a, v), hmem, rfl⟩) hnd.1
      · simp only [alookup, if_neg ha]
        exact ih hnd.2 hmem

theorem mem_keys_of_alookup_eq_some {k : α} {v : β} {l : List (α × β)}
    (h : alookup k l = some v) : k ∈ l.map Prod.fst :=
  List.mem_map.mpr ⟨(k, v), mem_of_alookup_eq_some h, rfl⟩

/-- Lookup over a list whose values were transformed pointwise. -/
theorem alookup_map_values (k : α) (f : β → β) (l : List (α × β)) :
    alookup k (l.map (fun p => (p.1, f p.2))) = (alookup k l).map f := by
  induction l with
  | nil => simp [alookup]
  | cons hd tl ih =>
    obtain ⟨a, b⟩ := hd
    by_cases ha : a = k <;> simp [alookup, ha, ih]

end AssocListLemmas

/-! ## Tag parsing and bucket update lemmas -/

theorem dedupFirst_go_spec (l seen : List String) :
    (dedupFirst.go seen l).Nodup ∧ ∀ x ∈ dedupFirst.go seen l, x ∉ seen := by
  induction l generalizing seen with
  | nil => exact ⟨List.nodup_nil, by simp [dedupFirst.go]⟩
  | cons hd tl ih =>
    by_cases hm : hd ∈ seen
    · simp only [dedupFirst.go, if_pos hm]
      exact ih seen
    · simp only [dedupFirst.go, if_neg hm]
      obtain ⟨h1, h2⟩ := ih (hd :: seen)
      constructor
      · rw [List.nodup_cons]
        exact ⟨fun hx => (h2 hd hx) (List.mem_cons_self _ _), h1⟩
      · intro x hx
        rcases List.mem_cons.mp hx with h3 | h3
        · subst h3; exact hm
        · exact fun hxs => (h2 x h3) (List.mem_cons_of_mem _ hxs)

theorem parseTags_nodup (s : String) : (parseTags s).Nodup :=
  (dedupFirst_go_spec (splitWs s) []).1

theorem alookup_addToBucket_none (t : String) (id : Nat)
    (ti : List (String × List Nat)) (h : alookup t ti = none) :
    alookup t (addToBucket t id ti) = some [id] := by
  unfold addToBucket
  rw [h]
  exact alookup_aset_self t [id] ti

theorem alookup_addToBucket_mem (t : String) (id : Nat)
    (ti : List (String × List Nat)) (b : List Nat)
    (h : alookup t ti = some b) (hid : id ∈ b) :
    alookup t (addToBucket t id ti) = some b := by
  unfold addToBucket
  rw [h]
  dsimp only
  rw [if_pos hid]
  exact alookup_aset_self t b ti

theorem alookup_addToBucket_new (t : String) (id : Nat)
    (ti : List (String × List Nat)) (b : List Nat)
    (h : alookup t ti = some b) (hid : id ∉ b) :
    alookup t (addToBucket t id ti) = some (b ++ [id]) := by
  unfold addToBucket
  rw [h]
  dsimp only
  rw [if_neg hid]
  exact alookup_aset_self t (b ++ [id]) ti

theorem alookup_addToBucket_ne (t t' : String) (id : Nat)
    (ti : List (String × List Nat)) (h : t' ≠ t) :
    alookup t' (addToBucket t id ti) = alookup t' ti := by
  unfold addToBucket
  cases alookup t ti with
  | none => exact alookup_aset_ne t t' _ ti h
  | some b =>
    dsimp only
    exact alookup_aset_ne t t' _ ti h

theorem nodupKeys_addToBucket (t : String) (id : Nat)
    (ti : List (String × List Nat)) (h : NodupKeys ti) :
    NodupKeys (addToBucket t id ti) := by
  unfold addToBucket
  cases alookup t ti with
  | none => exact nodupKeys_aset _ _ _ h
  | some b =>
    dsimp only
    exact nodupKeys_aset _ _ _ h

theorem bucketWF_addToBucket (t : String) (id : Nat)
    (ti : List (String × List Nat))
    (h : ∀ t2 b, alookup t2 ti = some b → b ≠ [] ∧ b.Nodup) :
    ∀ t2 b, alookup t2 (addToBucket t id ti) = some b → b ≠ [] ∧ b.Nodup := by
  intro t2 b hb
  by_cases ht : t2 = t
  · subst ht
    cases hcase : alookup t2 ti with
    | none =>
      rw [alookup_addToBucket_none t2 id ti hcase] at hb
      have hbe : [id] = b := Option.some.inj hb
      subst hbe
      exact ⟨by simp, List.nodup_singleton id⟩
    | some b0 =>
      obtain ⟨hne, hnd⟩ := h t2 b0 hcase
      by_cases hid : id ∈ b0
      · rw [alookup_addToBucket_mem t2 id ti b0 hcase hid] at hb
        have hbe : b0 = b := Option.some.inj hb
        subst hbe
        exact ⟨hne, hnd⟩
      · rw [alookup_addToBucket_new t2 id ti b0 hcase hid] at hb
        have hbe : b0 ++ [id] = b := Option.some.inj hb
        subst hbe
        refine ⟨by simp, ?_⟩
        rw [List.nodup_append]
        exact ⟨hnd, List.nodup_singleton id,
          fun x hx hx2 => hid (List.mem_singleton.mp hx2 ▸ hx)⟩
  · rw [alookup_addToBucket_ne t t2 id ti ht] at hb
    exact h t2 b hb

/-! ## Lemmas about the bucket fold done by instantiateEvent / addTags -/

theorem addBF_lookup_not_mem (id : Nat) (tags : List String)
    (ti : List (String × List Nat)) (t : String) (h : t ∉ tags) :
    alookup t (tags.foldl (fun a tg => addToBucket tg id a) ti) =
      alookup t ti := by
  induction tags generalizing ti with
  | nil => rfl
  | cons hd tl ih =>
    rw [List.mem_cons, not_or] at h
    rw [List.foldl_cons, ih _ h.2]
    exact alookup_addToBucket_ne hd t id ti h.1

theorem addBF_lookup_mono (id : Nat) (tags : List String)
    (ti : List (String × List Nat)) (t : String) (b0 : List Nat) (j : Nat)
    (hb : alookup t ti = some b0) (hj : j ∈ b0) :
    ∃ b, alookup t (tags.foldl (fun a tg => addToBucket tg id a) ti) = some b ∧
      j ∈ b := by
  induction tags generalizing ti b0 with
  | nil => exact ⟨b0, hb, hj⟩
  | cons hd tl ih =>
    rw [List.foldl_cons]
    by_cases ht : t = hd
    · subst ht
      by_cases hid : id ∈ b0
      · exact ih _ _ (alookup_addToBucket_mem t id ti b0 hb hid) hj
      · exact ih _ _ (alookup_addToBucket_new t id ti b0 hb hid)
          (List.mem_append.mpr (Or.inl hj))
    · refine ih _ b0 ?_ hj
      rw [alookup_addToBucket_ne hd t id ti ht]
      exact hb

theorem addBF_lookup_mem (id : Nat) (tags : List String)
    (ti : List (String × List Nat)) (t : String) (h : t ∈ tags) :
    ∃ b, alookup t (tags.foldl (fun a tg => addToBucket tg id a) ti) = some b ∧
      id ∈ b := by
  induction tags generalizing ti with
  | nil => simp at h
  | cons hd tl ih =>
    rw [List.foldl_cons]
    by_cases htl : t ∈ tl
    · exact ih _ htl
    · have hht : t = hd := by
        rcases List.mem_cons.mp h with h1 | h1
        · exact h1
        · exact absurd h1 htl
      subst hht
      cases hcase : alookup t ti with
      | none =>
        exact addBF_lookup_mono id tl _ t [id] id
          (alookup_addToBucket_none t id ti hcase) (List.mem_singleton_self id)
      | some b0 =>
        by_cases hid : id ∈ b0
        · exact addBF_lookup_mono id tl _ t b0 id
            (alookup_addToBucket_mem t id ti b0 hcase hid) hid
        · exact addBF_lookup_mono id tl _ t (b0 ++ [id]) id
            (alookup_addToBucket_new t id ti b0 hcase hid)
            (List.mem_append.mpr (Or.inr (List.mem_singleton_self id)))

theorem addBF_lookup_provenance (id : Nat) (tags : List String)
    (ti : List (String × List Nat)) (t : String) (b : List Nat)
    (hb : alookup t (tags.foldl (fun a tg => addToBucket tg id a) ti) = some b) :
    ∀ j ∈ b, (∃ b0, alookup t ti = some b0 ∧ j ∈ b0) ∨ (j = id ∧ t ∈ tags) := by
  induction tags generalizing ti with
  | nil => exact fun j hj => Or.inl ⟨b, hb, hj⟩
  | cons hd tl ih =>
    rw [List.foldl_cons] at hb
    intro j hj
    rcases ih _ hb j hj with ⟨b1, hb1, hjb1⟩ | ⟨hji, hjt⟩
    · by_cases ht : t = hd
      · subst ht
        cases hcase : alookup t ti with
        | none =>
          rw [alookup_addToBucket_none t id ti hcase] at hb1
          have hbe : [id] = b1 := Option.some.inj hb1
          subst hbe
          exact Or.inr ⟨List.mem_singleton.mp hjb1, List.mem_cons_self _ _⟩
        | some b0 =>
          by_cases hid : id ∈ b0
          · rw [alookup_addToBucket_mem t id ti b0 hcase hid] at hb1
            have hbe : b0 = b1 := Option.some.inj hb1
            subst hbe
            exact Or.inl ⟨b0, rfl, hjb1⟩
          · rw [alookup_addToBucket_new t id ti b0 hcase hid] at hb1
            have hbe : b0 ++ [id] = b1 := Option.some.inj hb1
            subst hbe
            rcases List.mem_append.mp hjb1 with h1 | h1
            · exact Or.inl ⟨b0, rfl, h1⟩
            · exact Or.inr ⟨List.mem_singleton.mp h1, List.mem_cons_self _ _⟩
      · rw [alookup_addToBucket_ne hd t id ti ht] at hb1
        exact Or.inl ⟨b1, hb1, hjb1⟩
    · exact Or.inr ⟨hji, List.mem_cons_of_mem _ hjt⟩

theorem addBF_bucketWF (id : Nat) (tags : List String)
    (ti : List (String × List Nat))
    (h : ∀ t b, alookup t ti = some b → b ≠ [] ∧ b.Nodup) :
    ∀ t b,
      alookup t (tags.foldl (fun a tg => addToBucket tg id a) ti) = some b →
        b ≠ [] ∧ b.Nodup := by
  induction tags generalizing ti with
  | nil => exact h
  | cons hd tl ih =>
    intro t b hb
    rw [List.foldl_cons] at hb
    exact ih _ (bucketWF_addToBucket hd id ti h) t b hb

theorem addBF_nodupKeys (id : Nat) (tags : List String)
    (ti : List (String × List Nat)) (h : NodupKeys ti) :
    NodupKeys (tags.foldl (fun a tg => addToBucket tg id a) ti) := by
  induction tags generalizing ti with
  | nil => exact h
  | cons hd tl ih =>
    rw [List.foldl_cons]
    exact ih _ (nodupKeys_addToBucket hd id ti h)

/-! ## Lemmas about dropFromBucket and its fold (removeTags, removeInstance) -/

theorem alookup_dropFromBucket_ne (id : Nat) (ti : List (String × List Nat))
    (t t' : String) (h : t' ≠ t) :
    alookup t' (dropFromBucket id ti t) = alookup t' ti := by
  unfold dropFromBucket
  cases alookup t ti with
  | none => rfl
  | some b =>
    dsimp only
    by_cases hb2 : b.erase id = []
    · rw [if_pos hb2]
      exact alookup_adel_ne t t' ti h
    · rw [if_neg hb2]
      exact alookup_aset_ne t t' _ ti h

theorem nodupKeys_dropFromBucket (id : Nat) (ti : List (String × List Nat))
    (t : String) (h : NodupKeys ti) : NodupKeys (dropFromBucket id ti t) := by
  unfold dropFromBucket
  cases alookup t ti with
  | none => exact h
  | some b =>
    dsimp only
    by_cases hb2 : b.erase id = []
    · rw [if_pos hb2]
      exact nodupKeys_adel t ti h
    · rw [if_neg hb2]
      exact nodupKeys_aset _ _ _ h

theorem alookup_dropFromBucket_self (id : Nat) (ti : List (String × List Nat))
    (t : String) (hnd : NodupKeys ti) :
    alookup t (dropFromBucket id ti t) =
      (match alookup t ti with
       | none => none
       | some b => if b.erase id = [] then none else some (b.erase id)) := by
  unfold dropFromBucket
  cases hcase : alookup t ti with
  | none => exact hcase
  | some b =>
    dsimp only
    by_cases hb2 : b.erase id = []
    · rw [if_pos hb2, if_pos hb2]
      exact alookup_adel_self t ti hnd
    · rw [if_neg hb2, if_neg hb2]
      exact alookup_aset_self t _ ti

theorem dropFold_nodupKeys (id : Nat) (tags : List String)
    (ti : List (String × List Nat)) (h : NodupKeys ti) :
    NodupKeys (tags.foldl (dropFromBucket id) ti) := by
  induction tags generalizing ti with
  | nil => exact h
  | cons hd tl ih =>
    rw [List.foldl_cons]
    exact ih _ (nodupKeys_dropFromBucket id ti hd h)

theorem dropFold_lookup (id : Nat) (tags : List String) (hnodup : tags.Nodup)
    (ti : List (String × List Nat)) (hnd : NodupKeys ti) (t : String) :
    alookup t (tags.foldl (dropFromBucket id) ti) =
      if t ∈ tags then
        (match alookup t ti with
         | none => none
         | some b => if b.erase id = [] then none else some (b.erase id))
      else alookup t ti := by
  induction tags generalizing ti with
  | nil => simp
  | cons hd tl ih =>
    rw [List.nodup_cons] at hnodup
    rw [List.foldl_cons]
    have hndstep : NodupKeys (dropFromBucket id ti hd) :=
      nodupKeys_dropFromBucket id ti hd hnd
    by_cases ht : t = hd
    · subst ht
      rw [ih hnodup.2 _ hndstep, if_neg hnodup.1,
        if_pos (List.mem_cons_self _ _)]
      exact alookup_dropFromBucket_self id ti t hnd
    · rw [ih hnodup.2 _ hndstep, alookup_dropFromBucket_ne id ti hd t ht]
      by_cases htl : t ∈ tl
      · rw [if_pos htl, if_pos (List.mem_cons.mpr (Or.inr htl))]
      · rw [if_neg htl, if_neg ?_]
        rw [List.mem_cons]
        rintro (h1 | h1)
        · exact ht h1
        · exact htl h1

/-! ## The lookup-level inductive invariant -/

/-- Well-formedness plus the bidirectional consistency stated through
lookups: distinct keys, buckets nonempty and duplicate free, instance
tag sets duplicate free, ids below the counter, and both directions of
the tag/identity agreement. -/
structure InvL (st : WrapperSt) : Prop where
  ndI : NodupKeys st.instances
  ndT : NodupKeys st.tagIndex
  bucketWF : ∀ t b, alookup t st.tagIndex = some b → b ≠ [] ∧ b.Nodup
  instWF : ∀ id d, alookup id st.instances = some d →
    d.tags.Nodup ∧ id < st.nextInstanceId
  fwd : ∀ id d, alookup id st.instances = some d → ∀ t ∈ d.tags,
    ∃ b, alookup t st.tagIndex = some b ∧ id ∈ b
  bwd : ∀ t b, alookup t st.tagIndex = some b → ∀ j ∈ b,
    ∃ d, alookup j st.instances = some d ∧ t ∈ d.tags

theorem invL_initial : InvL initialWrapperSt := by
  refine ⟨List.nodup_nil, List.nodup_nil, ?_, ?_, ?_, ?_⟩ <;>
    intro a b hab <;> exact Option.noConfusion hab

theorem InvL.lookup_next_eq_none {st : WrapperSt} (h : InvL st) :
    alookup st.nextInstanceId st.instances = none := by
  cases hcase : alookup st.nextInstanceId st.instances with
  | none => rfl
  | some d => exact absurd (h.instWF _ _ hcase).2 (lt_irrefl _)

/-- Replacing the data of an existing id with data carrying the same tag
set (what `stopEvent` release marking, `startEvent` autoRelease setting
and the cleanup scan do) preserves the invariant. -/
theorem invL_updateEntry (st : WrapperSt) (h : InvL st) (id : Nat)
    (d d2 : InstData) (hl : alookup id st.instances = some d)
    (htags : d2.tags = d.tags) :
    InvL { st with instances := aset id d2 st.instances } := by
  refine ⟨nodupKeys_aset id d2 st.instances h.ndI, h.ndT, h.bucketWF,
    ?_, ?_, ?_⟩
  · intro j dj hlj
    by_cases hj : j = id
    · subst hj
      rw [alookup_aset_self] at hlj
      have hde : d2 = dj := Option.some.inj hlj
      subst hde
      obtain ⟨hnd, hlt⟩ := h.instWF j d hl
      refine ⟨?_, hlt⟩
      rw [htags]
      exact hnd
    · rw [alookup_aset_ne id j d2 st.instances hj] at hlj
      exact h.instWF j dj hlj
  · intro j dj hlj t ht
    by_cases hj : j = id
    · subst hj
      rw [alookup_aset_self] at hlj
      have hde : d2 = dj := Option.some.inj hlj
      subst hde
      rw [htags] at ht
      exact h.fwd j d hl t ht
    · rw [alookup_aset_ne id j d2 st.instances hj] at hlj
      exact h.fwd j dj hlj t ht
  · intro t b hb j hj
    obtain ⟨dj, hdj, htj⟩ := h.bwd t b hb j hj
    by_cases hjid : j = id
    · subst hjid
      rw [hl] at hdj
      have hde : d = dj := Option.some.inj hdj
      subst hde
      refine ⟨d2, alookup_aset_self j d2 st.instances, ?_⟩
      rw [htags]
      exact htj
    · refine ⟨dj, ?_, htj⟩
      rw [alookup_aset_ne id j d2 st.instances hjid]
      exact hdj

theorem invL_setReleasedOn (st : WrapperSt) (h : InvL st) (id : Nat) :
    InvL (setReleasedOn st id) := by
  unfold setReleasedOn
  cases hl : alookup id st.instances with
  | none => exact h
  | some d => exact invL_updateEntry st h id d { d with released := true } hl rfl

theorem invL_foldSetReleased (l : List (Nat × InstData)) (st : WrapperSt)
    (h : InvL st) :
    InvL (l.foldl (fun s p => setReleasedOn s p.1) st) := by
  induction l generalizing st with
  | nil => exact h
  | cons hd tl ih =>
    rw [List.foldl_cons]
    exact ih _ (invL_setReleasedOn st h hd.1)

theorem invL_stopEvent (name : Option String) (tag : TagSel)
    (f r : Bool) (st : WrapperSt) (h : InvL st) :
    InvL (stopEvent name tag f r st) := by
  unfold stopEvent
  cases r with
  | false => exact h
  | true => exact invL_foldSetReleased _ st h

theorem invL_instantiateEvent (name tags : String) (e : Option Nat)
    (st : WrapperSt) (h : InvL st) :
    InvL (instantiateEvent name tags e st).2 := by
  cases e with
  | none => exact h
  | some hdl =>
    have hfresh : alookup st.nextInstanceId st.instances = none :=
      h.lookup_next_eq_none
    show InvL
      { instances := aset st.nextInstanceId
          ⟨some hdl, name, parseTags tags, false, false⟩ st.instances,
        tagIndex := (parseTags tags).foldl
          (fun a t => addToBucket t st.nextInstanceId a) st.tagIndex,
        nextInstanceId := st.nextInstanceId + 1 }
    set id := st.nextInstanceId with hidDef
    set d : InstData := ⟨some hdl, name, parseTags tags, false, false⟩
      with hdDef
    refine ⟨nodupKeys_aset id d st.instances h.ndI,
      addBF_nodupKeys id (parseTags tags) st.tagIndex h.ndT,
      addBF_bucketWF id (parseTags tags) st.tagIndex h.bucketWF, ?_, ?_, ?_⟩
    · intro j dj hlj
      by_cases hj : j = id
      · subst hj
        rw [alookup_aset_self] at hlj
        have hde : d = dj := Option.some.inj hlj
        subst hde
        exact ⟨parseTags_nodup tags, Nat.lt_succ_self id⟩
      · rw [alookup_aset_ne id j d st.instances hj] at hlj
        obtain ⟨hnd, hlt⟩ := h.instWF j dj hlj
        exact ⟨hnd, Nat.lt_succ_of_lt hlt⟩
    · intro j dj hlj t ht
      by_cases hj : j = id
      · subst hj
        rw [alookup_aset_self] at hlj
        have hde : d = dj := Option.some.inj hlj
        subst hde
        exact addBF_lookup_mem id (parseTags tags) st.tagIndex t ht
      · rw [alookup_aset_ne id j d st.instances hj] at hlj
        obtain ⟨b0, hb0, hjb⟩ := h.fwd j dj hlj t ht
        exact addBF_lookup_mono id (parseTags tags) st.tagIndex t b0 j hb0 hjb
    · intro t b hb j hj
      rcases addBF_lookup_provenance id (parseTags tags) st.tagIndex t b hb
          j hj with ⟨b0, hb0, hjb0⟩ | ⟨hji, hjt⟩
      · obtain ⟨dj, hdj, htj⟩ := h.bwd t b0 hb0 j hjb0
        have hjid : j ≠ id := by
          intro he
          rw [he, hfresh] at hdj
          exact Option.noConfusion hdj
        refine ⟨dj, ?_, htj⟩
        rw [alookup_aset_ne id j d st.instances hjid]
        exact hdj
      · subst hji
        exact ⟨d, alookup_aset_self id d st.instances, hjt⟩

theorem invL_addTag1 (id : Nat) (t : String) (st : WrapperSt) (h : InvL st) :
    InvL (addTag1 id t st) := by
  unfold addTag1
  cases hl : alookup id st.instances with
  | none => exact h
  | some d =>
    dsimp only
    by_cases ht : t ∈ d.tags
    · rw [if_pos ht]
      exact h
    · rw [if_neg ht]
      obtain ⟨htagsnd, hlt⟩ := h.instWF id d hl
      refine ⟨nodupKeys_aset id _ st.instances h.ndI,
        nodupKeys_addToBucket t id st.tagIndex h.ndT,
        bucketWF_addToBucket t id st.tagIndex h.bucketWF, ?_, ?_, ?_⟩
      · intro j dj hlj
        by_cases hj : j = id
        · subst hj
          rw [alookup_aset_self] at hlj
          have hde : { d with tags := d.tags ++ [t] } = dj :=
            Option.some.inj hlj
          subst hde
          refine ⟨?_, hlt⟩
          dsimp only
          rw [List.nodup_append]
          refine ⟨htagsnd, List.nodup_singleton t, fun x hx hx2 => ?_⟩
          rw [List.mem_singleton] at hx2
          subst hx2
          exact ht hx
        · rw [alookup_aset_ne id j _ st.instances hj] at hlj
          exact h.instWF j dj hlj
      · intro j dj hlj t2 ht2
        by_cases hj : j = id
        · subst hj
          rw [alookup_aset_self] at hlj
          have hde : { d with tags := d.tags ++ [t] } = dj :=
            Option.some.inj hlj
          subst hde
          rcases List.mem_append.mp ht2 with h1 | h1
          · obtain ⟨b0, hb0, hjb⟩ := h.fwd j d hl t2 h1
            exact addBF_lookup_mono j [t] st.tagIndex t2 b0 j hb0 hjb
          · have h1e : t2 = t := List.mem_singleton.mp h1
            subst h1e
            exact addBF_lookup_mem j [t2] st.tagIndex t2
              (List.mem_singleton_self t2)
        · rw [alookup_aset_ne id j _ st.instances hj] at hlj
          obtain ⟨b0, hb0, hjb⟩ := h.fwd j dj hlj t2 ht2
          exact addBF_lookup_mono id [t] st.tagIndex t2 b0 j hb0 hjb
      · intro t2 b hb j hj2
        rcases addBF_lookup_provenance id [t] st.tagIndex t2 b hb j hj2 with
          ⟨b0, hb0, hjb0⟩ | ⟨hji, hjt⟩
        · obtain ⟨dj, hdj, htj⟩ := h.bwd t2 b0 hb0 j hjb0
          by_cases hjid : j = id
          · subst hjid
            rw [hl] at hdj
            have hde : d = dj := Option.some.inj hdj
            subst hde
            refine ⟨{ d with tags := d.tags ++ [t] },
              alookup_aset_self j _ st.instances, ?_⟩
            dsimp only
            exact List.mem_append.mpr (Or.inl htj)
          · refine ⟨dj, ?_, htj⟩
            rw [alookup_aset_ne id j _ st.instances hjid]
            exact hdj
        · subst hji
          have ht2t : t2 = t := List.mem_singleton.mp hjt
          subst ht2t
          refine ⟨{ d with tags := d.tags ++ [t2] },
            alookup_aset_self j _ st.instances, ?_⟩
          dsimp only
          exact List.mem_append.mpr (Or.inr (List.mem_singleton_self t2))

theorem invL_addTags (id : Nat) (tags : String) (st : WrapperSt)
    (h : InvL st) : InvL (addTags id tags st) := by
  unfold addTags
  cases alookup id st.instances with
  | none => exact h
  | some d =>
    dsimp only
    induction splitWs tags generalizing st with
    | nil => exact h
    | cons hd tl ih =>
      rw [List.foldl_cons]
      exact ih _ (invL_addTag1 id hd st h)

theorem invL_removeTag1 (id : Nat) (t : String) (st : WrapperSt)
    (h : InvL st) : InvL (removeTag1 id t st) := by
  unfold removeTag1
  cases hl : alookup id st.instances with
  | none => exact h
  | some d =>
    dsimp only
    by_cases ht : t ∈ d.tags
    · rw [if_pos ht]
      obtain ⟨htagsnd, hlt⟩ := h.instWF id d hl
      refine ⟨nodupKeys_aset id _ st.instances h.ndI,
        nodupKeys_dropFromBucket id st.tagIndex t h.ndT, ?_, ?_, ?_, ?_⟩
      · intro t2 b hb
        by_cases ht2 : t2 = t
        · subst ht2
          rw [alookup_dropFromBucket_self id st.tagIndex t2 h.ndT] at hb
          cases hcase : alookup t2 st.tagIndex with
          | none =>
            rw [hcase] at hb
            exact Option.noConfusion hb
          | some b0 =>
            rw [hcase] at hb
            dsimp only at hb
            by_cases hb2 : b0.erase id = []
            · rw [if_pos hb2] at hb
              exact Option.noConfusion hb
            · rw [if_neg hb2] at hb
              have hbe : b0.erase id = b := Option.some.inj hb
              subst hbe
              obtain ⟨_, hnd0⟩ := h.bucketWF t2 b0 hcase
              exact ⟨hb2, hnd0.erase id⟩
        · rw [alookup_dropFromBucket_ne id st.tagIndex t t2 ht2] at hb
          exact h.bucketWF t2 b hb
      · intro j dj hlj
        by_cases hj : j = id
        · subst hj
          rw [alookup_aset_self] at hlj
          have hde : { d with tags := d.tags.erase t } = dj :=
            Option.some.inj hlj
          subst hde
          exact ⟨htagsnd.erase t, hlt⟩
        · rw [alookup_aset_ne id j _ st.instances hj] at hlj
          exact h.instWF j dj hlj
      · intro j dj hlj t2 ht2
        by_cases hj : j = id
        · subst hj
          rw [alookup_aset_self] at hlj
          have hde : { d with tags := d.tags.erase t } = dj :=
            Option.some.inj hlj
          subst hde
          have ht2' : t2 ≠ t ∧ t2 ∈ d.tags :=
            (htagsnd.mem_erase_iff).mp ht2
          obtain ⟨b0, hb0, hjb⟩ := h.fwd j d hl t2 ht2'.2
          rw [alookup_dropFromBucket_ne j st.tagIndex t t2 ht2'.1]
          exact ⟨b0, hb0, hjb⟩
        · rw [alookup_aset_ne id j _ st.instances hj] at hlj
          obtain ⟨b0, hb0, hjb⟩ := h.fwd j dj hlj t2 ht2
          by_cases ht2t : t2 = t
          · subst ht2t
            rw [alookup_dropFromBucket_self id st.tagIndex t2 h.ndT, hb0]
            dsimp only
            obtain ⟨_, hnd0⟩ := h.bucketWF t2 b0 hb0
            have hjb2 : j ∈ b0.erase id :=
              (hnd0.mem_erase_iff).mpr ⟨hj, hjb⟩
            have hne : ¬ b0.erase id = [] := by
              intro he
              rw [he] at hjb2
              exact absurd hjb2 (List.not_mem_nil j)
            rw [if_neg hne]
            exact ⟨b0.erase id, rfl, hjb2⟩
          · rw [alookup_dropFromBucket_ne id st.tagIndex t t2 ht2t]
            exact ⟨b0, hb0, hjb⟩
      · intro t2 b hb j hj2
        by_cases ht2 : t2 = t
        · subst ht2
          rw [alookup_dropFromBucket_self id st.tagIndex t2 h.ndT] at hb
          cases hcase : alookup t2 st.tagIndex with
          | none =>
            rw [hcase] at hb
            exact Option.noConfusion hb
          | some b0 =>
            rw [hcase] at hb
            dsimp only at hb
            by_cases hb2 : b0.erase id = []
            · rw [if_pos hb2] at hb
              exact Option.noConfusion hb
            · rw [if_neg hb2] at hb
              have hbe : b0.erase id = b := Option.some.inj hb
              subst hbe
              obtain ⟨_, hnd0⟩ := h.bucketWF t2 b0 hcase
              have hj3 : j ≠ id ∧ j ∈ b0 := (hnd0.mem_erase_iff).mp hj2
              obtain ⟨dj, hdj, htj⟩ := h.bwd t2 b0 hcase j hj3.2
              refine ⟨dj, ?_, htj⟩
              rw [alookup_aset_ne id j _ st.instances hj3.1]
              exact hdj
        · rw [alookup_dropFromBucket_ne id st.tagIndex t t2 ht2] at hb
          obtain ⟨dj, hdj, htj⟩ := h.bwd t2 b hb j hj2
          by_cases hjid : j = id
          · subst hjid
            rw [hl] at hdj
            have hde : d = dj := Option.some.inj hdj
            subst hde
            refine ⟨{ d with tags := d.tags.erase t },
              alookup_aset_self j _ st.instances, ?_⟩
            dsimp only
            exact (List.mem_erase_of_ne ht2).mpr htj
          · refine ⟨dj, ?_, htj⟩
            rw [alookup_aset_ne id j _ st.instances hjid]
            exact hdj
    · rw [if_neg ht]
      exact h

theorem invL_removeTags (id : Nat) (tags : String) (st : WrapperSt)
    (h : InvL st) : InvL (removeTags id tags st) := by
  unfold removeTags
  cases alookup id st.instances with
  | none => exact h
  | some d =>
    dsimp only
    induction splitWs tags generalizing st with
    | nil => exact h
    | cons hd tl ih =>
      rw [List.foldl_cons]
      exact ih _ (invL_removeTag1 id hd st h)

theorem invL_removeInstance (id : Nat) (st : WrapperSt) (h : InvL st) :
    InvL (removeInstance id st) := by
  unfold removeInstance
  cases hl : alookup id st.instances with
  | none => exact h
  | some d =>
    dsimp only
    obtain ⟨htagsnd, _⟩ := h.instWF id d hl
    have hdl : ∀ t2, alookup t2 (d.tags.foldl (dropFromBucket id) st.tagIndex)
        = if t2 ∈ d.tags then
            (match alookup t2 st.tagIndex with
             | none => none
             | some b => if b.erase id = [] then none else some (b.erase id))
          else alookup t2 st.tagIndex :=
      fun t2 => dropFold_lookup id d.tags htagsnd st.tagIndex h.ndT t2
    refine ⟨nodupKeys_adel id st.instances h.ndI,
      dropFold_nodupKeys id d.tags st.tagIndex h.ndT, ?_, ?_, ?_, ?_⟩
    · intro t2 b hb
      rw [hdl t2] at hb
      by_cases ht2 : t2 ∈ d.tags
      · rw [if_pos ht2] at hb
        cases hcase : alookup t2 st.tagIndex with
        | none =>
          rw [hcase] at hb
          exact Option.noConfusion hb
        | some b0 =>
          rw [hcase] at hb
          dsimp only at hb
          by_cases hb2 : b0.erase id = []
          · rw [if_pos hb2] at hb
            exact Option.noConfusion hb
          · rw [if_neg hb2] at hb
            have hbe : b0.erase id = b := Option.some.inj hb
            subst hbe
            obtain ⟨_, hnd0⟩ := h.bucketWF t2 b0 hcase
            exact ⟨hb2, hnd0.erase id⟩
      · rw [if_neg ht2] at hb
        exact h.bucketWF t2 b hb
    · intro j dj hlj
      by_cases hj : j = id
      · subst hj
        rw [alookup_adel_self j st.instances h.ndI] at hlj
        exact Option.noConfusion hlj
      · rw [alookup_adel_ne id j st.instances hj] at hlj
        exact h.instWF j dj hlj
    · intro j dj hlj t2 ht2
      by_cases hj : j = id
      · subst hj
        rw [alookup_adel_self j st.instances h.ndI] at hlj
        exact Option.noConfusion hlj
      · rw [alookup_adel_ne id j st.instances hj] at hlj
        obtain ⟨b0, hb0, hjb⟩ := h.fwd j dj hlj t2 ht2
        rw [hdl t2]
        by_cases ht2d : t2 ∈ d.tags
        · rw [if_pos ht2d, hb0]
          dsimp only
          obtain ⟨_, hnd0⟩ := h.bucketWF t2 b0 hb0
          have hjb2 : j ∈ b0.erase id := (hnd0.mem_erase_iff).mpr ⟨hj, hjb⟩
          have hne : ¬ b0.erase id = [] := by
            intro he
            rw [he] at hjb2
            exact absurd hjb2 (List.not_mem_nil j)
          rw [if_neg hne]
          exact ⟨b0.erase id, rfl, hjb2⟩
        · rw [if_neg ht2d]
          exact ⟨b0, hb0, hjb⟩
    · intro t2 b hb j hj2
      rw [hdl t2] at hb
      by_cases ht2 : t2 ∈ d.tags
      · rw [if_pos ht2] at hb
        cases hcase : alookup t2 st.tagIndex with
        | none =>
          rw [hcase] at hb
          exact Option.noConfusion hb
        | some b0 =>
          rw [hcase] at hb
          dsimp only at hb
          by_cases hb2 : b0.erase id = []
          · rw [if_pos hb2] at hb
            exact Option.noConfusion hb
          · rw [if_neg hb2] at hb
            have hbe : b0.erase id = b := Option.some.inj hb
            subst hbe
            obtain ⟨_, hnd0⟩ := h.bucketWF t2 b0 hcase
            have hj3 : j ≠ id ∧ j ∈ b0 := (hnd0.mem_erase_iff).mp hj2
            obtain ⟨dj, hdj, htj⟩ := h.bwd t2 b0 hcase j hj3.2
            refine ⟨dj, ?_, htj⟩
            rw [alookup_adel_ne id j st.instances hj3.1]
            exact hdj
      · rw [if_neg ht2] at hb
        obtain ⟨dj, hdj, htj⟩ := h.bwd t2 b hb j hj2
        have hjid : j ≠ id := by
          intro he
          subst he
          rw [hl] at hdj
          have hde : d = dj := Option.some.inj hdj
          subst hde
          exact ht2 htj
        refine ⟨dj, ?_, htj⟩
        rw [alookup_adel_ne id j st.instances hjid]
        exact hdj

/-! ## Lemmas about the cleanup scan -/

theorem markT_released (q : Nat → QueryRes) (d : InstData)
    (h : d.released = true) : markT q d = d := by
  unfold markT
  rw [if_pos h]

theorem remB_released (q : Nat → QueryRes) (d : InstData)
    (h : d.released = true) : remB q d = true := by
  simp [remB, h]

theorem markT_no_handle (q : Nat → QueryRes) (d : InstData)
    (h1 : d.released = false) (h2 : d.inst = none) : markT q d = d := by
  simp [markT, h1, h2]

theorem remB_no_handle (q : Nat → QueryRes) (d : InstData)
    (h1 : d.released = false) (h2 : d.inst = none) : remB q d = true := by
  simp [remB, h1, h2]

theorem markT_err (q : Nat → QueryRes) (d : InstData) (hl : Nat)
    (h1 : d.released = false) (h2 : d.inst = some hl) (h3 : q hl = .err) :
    markT q d = { d with released := true } := by
  simp [markT, h1, h2, h3]

theorem remB_err (q : Nat → QueryRes) (d : InstData) (hl : Nat)
    (h1 : d.released = false) (h2 : d.inst = some hl) (h3 : q hl = .err) :
    remB q d = true := by
  simp [remB, h1, h2, h3]

theorem markT_ok (q : Nat → QueryRes) (d : InstData) (hl : Nat)
    (s : PlaybackState) (h1 : d.released = false) (h2 : d.inst = some hl)
    (h3 : q hl = .ok s) :
    markT q d =
      if decide (s = .stopped) && d.autoRelease then
        { d with released := true }
      else d := by
  simp only [markT, h1, Bool.false_eq_true, if_false, h2, h3]

theorem remB_ok (q : Nat → QueryRes) (d : InstData) (hl : Nat)
    (s : PlaybackState) (h1 : d.released = false) (h2 : d.inst = some hl)
    (h3 : q hl = .ok s) :
    remB q d = (decide (s = .stopped) && d.autoRelease) := by
  simp [remB, h1, h2, h3]

theorem markT_tags (q : Nat → QueryRes) (d : InstData) :
    (markT q d).tags = d.tags := by
  by_cases h1 : d.released = true
  · rw [markT_released q d h1]
  · have h1f : d.released = false := by
      revert h1
      cases d.released <;> simp
    cases h2 : d.inst with
    | none => rw [markT_no_handle q d h1f h2]
    | some hl =>
      cases h3 : q hl with
      | err => rw [markT_err q d hl h1f h2 h3]
      | ok s =>
        rw [markT_ok q d hl s h1f h2 h3]
        by_cases h4 : (decide (s = PlaybackState.stopped) && d.autoRelease)
            = true
        · rw [if_pos h4]
        · rw [if_neg h4]

theorem markT_of_remB_false (q : Nat → QueryRes) (d : InstData)
    (h : remB q d = false) : markT q d = d := by
  by_cases h1 : d.released = true
  · rw [remB_released q d h1] at h
    exact Bool.noConfusion h
  · have h1f : d.released = false := by
      revert h1
      cases d.released <;> simp
    cases h2 : d.inst with
    | none =>
      rw [remB_no_handle q d h1f h2] at h
      exact Bool.noConfusion h
    | some hl =>
      cases h3 : q hl with
      | err =>
        rw [remB_err q d hl h1f h2 h3] at h
        exact Bool.noConfusion h
      | ok s =>
        rw [remB_ok q d hl s h1f h2 h3] at h
        rw [markT_ok q d hl s h1f h2 h3, h]
        rfl

theorem cleanupScan_cons (q : Nat → QueryRes) (id : Nat) (d : InstData)
    (tl : List (Nat × InstData)) :
    cleanupScan q ((id, d) :: tl) =
      ((id, markT q d) :: (cleanupScan q tl).1,
       if remB q d then id :: (cleanupScan q tl).2
       else (cleanupScan q tl).2) := by
  by_cases h1 : d.released = true
  · simp [cleanupScan, h1, markT_released q d h1, remB_released q d h1]
  · have h1f : d.released = false := by
      revert h1
      cases d.released <;> simp
    cases h2 : d.inst with
    | none =>
      simp [cleanupScan, h1f, h2, markT_no_handle q d h1f h2,
        remB_no_handle q d h1f h2]
    | some hl =>
      cases h3 : q hl with
      | err =>
        simp [cleanupScan, h1f, h2, h3, markT_err q d hl h1f h2 h3,
          remB_err q d hl h1f h2 h3]
      | ok s =>
        by_cases h4 : (decide (s = PlaybackState.stopped) && d.autoRelease)
            = true
        · simp [cleanupScan, h1f, h2, h3, h4,
            markT_ok q d hl s h1f h2 h3, remB_ok q d hl s h1f h2 h3]
        · simp [cleanupScan, h1f, h2, h3, h4,
            markT_ok q d hl s h1f h2 h3, remB_ok q d hl s h1f h2 h3]

theorem cleanupScan_eq (q : Nat → QueryRes) (l : List (Nat × InstData)) :
    cleanupScan q l =
      (l.map (fun p => (p.1, markT q p.2)),
       l.filterMap (fun p => if remB q p.2 then some p.1 else none)) := by
  induction l with
  | nil => rfl
  | cons hd tl ih =>
    obtain ⟨id, d⟩ := hd
    rw [cleanupScan_cons, ih]
    rw [List.map_cons, List.filterMap_cons]
    dsimp only
    by_cases hr : remB q d = true
    · rw [if_pos hr, if_pos hr]
    · rw [if_neg hr, if_neg hr]

theorem keys_map_values (f : InstData → InstData)
    (l : List (Nat × InstData)) :
    (l.map (fun p => (p.1, f p.2))).map Prod.fst = l.map Prod.fst := by
  induction l with
  | nil => rfl
  | cons hd tl ih => simp [ih]

theorem invL_markPhase (q : Nat → QueryRes) (st : WrapperSt) (h : InvL st) :
    InvL { st with
      instances := st.instances.map (fun p => (p.1, markT q p.2)) } := by
  refine ⟨?_, h.ndT, h.bucketWF, ?_, ?_, ?_⟩
  · unfold NodupKeys
    rw [keys_map_values]
    exact h.ndI
  · intro j dj hlj
    rw [alookup_map_values] at hlj
    cases hcase : alookup j st.instances with
    | none =>
      rw [hcase] at hlj
      exact Option.noConfusion hlj
    | some d0 =>
      rw [hcase] at hlj
      have he : markT q d0 = dj := Option.some.inj hlj
      subst he
      obtain ⟨hnd, hlt⟩ := h.instWF j d0 hcase
      refine ⟨?_, hlt⟩
      rw [markT_tags]
      exact hnd
  · intro j dj hlj t ht
    rw [alookup_map_values] at hlj
    cases hcase : alookup j st.instances with
    | none =>
      rw [hcase] at hlj
      exact Option.noConfusion hlj
    | some d0 =>
      rw [hcase] at hlj
      have he : markT q d0 = dj := Option.some.inj hlj
      subst he
      rw [markT_tags] at ht
      exact h.fwd j d0 hcase t ht
  · intro t b hb j hj
    obtain ⟨dj, hdj, htj⟩ := h.bwd t b hb j hj
    refine ⟨markT q dj, ?_, ?_⟩
    · rw [alookup_map_values, hdj]
      rfl
    · rw [markT_tags]
      exact htj

theorem invL_foldRemove (rem : List Nat) (st : WrapperSt) (h : InvL st) :
    InvL (rem.foldl (fun s i => removeInstance i s) st) := by
  induction rem generalizing st with
  | nil => exact h
  | cons hd tl ih =>
    rw [List.foldl_cons]
    exact ih _ (invL_removeInstance hd st h)

theorem cleanupInstances_eq (q : Nat → QueryRes) (st : WrapperSt) :
    cleanupInstances q st =
      (st.instances.filterMap
          (fun p => if remB q p.2 then some p.1 else none)).foldl
        (fun s i => removeInstance i s)
        { st with
          instances := st.instances.map (fun p => (p.1, markT q p.2)) } := by
  unfold cleanupInstances
  rw [cleanupScan_eq]

theorem invL_cleanupInstances (q : Nat → QueryRes) (st : WrapperSt)
    (h : InvL st) : InvL (cleanupInstances q st) := by
  rw [cleanupInstances_eq]
  exact invL_foldRemove _ _ (invL_markPhase q st h)

/-! ## startEvent preserves the invariant; running any operation list -/

theorem invL_startEvent (name tags : String) (e : Option Nat)
    (ok dws : Bool) (st : WrapperSt) (h : InvL st) :
    InvL (startEvent name tags e ok dws st).2.1 := by
  cases e with
  | none => exact h
  | some hdl =>
    have h1 : InvL (instantiateEvent name tags (some hdl) st).2 :=
      invL_instantiateEvent name tags (some hdl) st h
    have h2 : InvL { (instantiateEvent name tags (some hdl) st).2 with
        instances := aset st.nextInstanceId
          ⟨some hdl, name, parseTags tags, false, dws⟩
          (instantiateEvent name tags (some hdl) st).2.instances } := by
      refine invL_updateEntry _ h1 st.nextInstanceId
        ⟨some hdl, name, parseTags tags, false, false⟩
        ⟨some hdl, name, parseTags tags, false, dws⟩ ?_ rfl
      show alookup st.nextInstanceId
          (aset st.nextInstanceId
            ⟨some hdl, name, parseTags tags, false, false⟩ st.instances) =
        some ⟨some hdl, name, parseTags tags, false, false⟩
      exact alookup_aset_self _ _ _
    unfold startEvent
    dsimp only [instantiateEvent]
    rw [alookup_aset_self]
    cases ok with
    | true => exact h2
    | false => exact invL_removeInstance _ _ h2

theorem invL_applyOp (st : WrapperSt) (op : Op) (h : InvL st) :
    InvL (applyOp st op) := by
  cases op with
  | instantiate n t e => exact invL_instantiateEvent n t e st h
  | addTagsOp id t => exact invL_addTags id t st h
  | removeTagsOp id t => exact invL_removeTags id t st h
  | stopEventOp n tg f r => exact invL_stopEvent n tg f r st h
  | startEventOp n t e ok dws => exact invL_startEvent n t e ok dws st h
  | updateOp q => exact invL_cleanupInstances q st h

theorem invL_foldOps (ops : List Op) :
    ∀ st, InvL st → InvL (ops.foldl applyOp st) := by
  induction ops with
  | nil => exact fun st h => h
  | cons hd tl ih =>
    intro st h
    rw [List.foldl_cons]
    exact ih _ (invL_applyOp st hd h)

theorem invL_runOps (ops : List Op) : InvL (runOps ops) :=
  invL_foldOps ops initialWrapperSt invL_initial

theorem consistent_of_invL (st : WrapperSt) (h : InvL st) : Consistent st := by
  constructor
  · intro p hp t ht
    have hl : alookup p.1 st.instances = some p.2 :=
      alookup_eq_some_of_mem h.ndI (by rw [Prod.mk.eta]; exact hp)
    obtain ⟨b, hb, hid⟩ := h.fwd p.1 p.2 hl t ht
    exact ⟨(t, b), mem_of_alookup_eq_some hb, rfl, hid⟩
  · intro qq hq id hid
    have hl : alookup qq.1 st.tagIndex = some qq.2 :=
      alookup_eq_some_of_mem h.ndT (by rw [Prod.mk.eta]; exact hq)
    obtain ⟨d, hd, htd⟩ := h.bwd qq.1 qq.2 hl id hid
    exact ⟨(id, d), mem_of_alookup_eq_some hd, rfl, htd⟩

/-! ## Claim C1: bidirectional consistency of the two indexes -/

/-- Claim C1: after any sequence of instantiateEvent, addTags,
removeTags, stopEvent (including the releasing variants), startEvent and
per-tick cleanup operations — with arbitrary engine responses — the two
registry indexes stay bidirectionally consistent: every tag of every
instance has a tag-index bucket containing that id, and every id found
under any tag in the tag index is in the identity map with that tag in
its tag set. -/
theorem C1_registry_bidirectional_consistency (ops : List Op) :
    Consistent (runOps ops) :=
  consistent_of_invL (runOps ops) (invL_runOps ops)

/-! ## Exact characterization of what the cleanup pass removes -/

theorem alookup_removeInstance (id j : Nat) (st : WrapperSt) (h : InvL st) :
    alookup j (removeInstance id st).instances =
      if j = id then none else alookup j st.instances := by
  unfold removeInstance
  cases hl : alookup id st.instances with
  | none =>
    dsimp only
    by_cases hj : j = id
    · rw [if_pos hj, hj]
      exact hl
    · rw [if_neg hj]
  | some d =>
    dsimp only
    by_cases hj : j = id
    · rw [if_pos hj, hj]
      exact alookup_adel_self id st.instances h.ndI
    · rw [if_neg hj]
      exact alookup_adel_ne id j st.instances hj

theorem alookup_foldRemove (rem : List Nat) (st : WrapperSt) (h : InvL st)
    (j : Nat) :
    alookup j ((rem.foldl (fun s i => removeInstance i s) st).instances) =
      if j ∈ rem then none else alookup j st.instances := by
  induction rem generalizing st with
  | nil => simp
  | cons hd tl ih =>
    rw [List.foldl_cons]
    rw [ih _ (invL_removeInstance hd st h)]
    rw [alookup_removeInstance hd j st h]
    by_cases h1 : j ∈ tl
    · rw [if_pos h1, if_pos (List.mem_cons.mpr (Or.inr h1))]
    · rw [if_neg h1]
      by_cases h2 : j = hd
      · rw [if_pos h2, if_pos (List.mem_cons.mpr (Or.inl h2))]
      · rw [if_neg h2, if_neg ?_]
        rw [List.mem_cons]
        rintro (ha | ha)
        · exact h2 ha
        · exact h1 ha

theorem mem_remList (q : Nat → QueryRes) (l : List (Nat × InstData))
    (hnd : NodupKeys l) (id : Nat) (d : InstData)
    (hl : alookup id l = some d) :
    (id ∈ l.filterMap (fun p => if remB q p.2 then some p.1 else none)) ↔
      remB q d = true := by
  rw [List.mem_filterMap]
  constructor
  · rintro ⟨p, hp, hf⟩
    by_cases hr : remB q p.2 = true
    · rw [if_pos hr] at hf
      have hpe : p.1 = id := Option.some.inj hf
      have hlp : alookup p.1 l = some p.2 :=
        alookup_eq_some_of_mem hnd (by rw [Prod.mk.eta]; exact hp)
      rw [hpe, hl] at hlp
      have hde : d = p.2 := Option.some.inj hlp
      rw [hde]
      exact hr
    · rw [if_neg hr] at hf
      exact Option.noConfusion hf
  · intro hr
    refine ⟨(id, d), mem_of_alookup_eq_some hl, ?_⟩
    dsimp only
    rw [if_pos hr]

theorem invL_of_wf_consistent (st : WrapperSt) (hWF : WFst st)
    (hC : Consistent st) : InvL st := by
  obtain ⟨ndI, ndT, hbw, hiw⟩ := hWF
  obtain ⟨hf, hb⟩ := hC
  refine ⟨ndI, ndT, ?_, ?_, ?_, ?_⟩
  · intro t b hbk
    exact hbw (t, b) (mem_of_alookup_eq_some hbk)
  · intro id d hl
    exact hiw (id, d) (mem_of_alookup_eq_some hl)
  · intro id d hl t ht
    obtain ⟨qq, hq, hq1, hq2⟩ := hf (id, d) (mem_of_alookup_eq_some hl) t ht
    refine ⟨qq.2, ?_, hq2⟩
    rw [← hq1]
    exact alookup_eq_some_of_mem ndT (by rw [Prod.mk.eta]; exact hq)
  · intro t b hbk j hj
    obtain ⟨pp, hp, hp1, hp2⟩ := hb (t, b) (mem_of_alookup_eq_some hbk) j hj
    refine ⟨pp.2, ?_, hp2⟩
    rw [← hp1]
    exact alookup_eq_some_of_mem ndI (by rw [Prod.mk.eta]; exact hp)

theorem remB_iff_cond (q : Nat → QueryRes) (d : InstData) (hdl : Nat)
    (hinst : d.inst = some hdl) :
    remB q d = true ↔
      (d.released = true ∨ q hdl = .err ∨
        (q hdl = .ok .stopped ∧ d.autoRelease = true)) := by
  unfold remB
  rw [hinst]
  dsimp only
  cases hq : q hdl with
  | err => simp
  | ok s => simp [Bool.or_eq_true, Bool.and_eq_true, decide_eq_true_eq]

/-! ## Claim C3: the per-tick cleanup pass -/

/-- Claim C3: over a well-formed consistent registry where every
instance holds an engine handle, the cleanup pass removes from the
identity map exactly the instances that are already marked released,
whose playback-state query errors, or that report stopped with
autoRelease set (so playing instances and stopped instances without
autoRelease survive untouched); every removed id disappears from every
tag bucket while surviving instances keep their tag registrations, and
no tag bucket is left empty. -/
theorem C3_cleanup_removes_exactly (query : Nat → QueryRes)
    (st : WrapperSt) (hWF : WFst st) (hC : Consistent st)
    (hH : ∀ p ∈ st.instances, p.2.inst.isSome = true) :
    (∀ id d hdl, alookup id st.instances = some d → d.inst = some hdl →
       ((alookup id (cleanupInstances query st).instances = none ↔
           (d.released = true ∨ query hdl = .err ∨
             (query hdl = .ok .stopped ∧ d.autoRelease = true))) ∧
        (¬ (d.released = true ∨ query hdl = .err ∨
              (query hdl = .ok .stopped ∧ d.autoRelease = true)) →
           alookup id (cleanupInstances query st).instances = some d ∧
             ∀ t ∈ d.tags,
               ∃ b, alookup t (cleanupInstances query st).tagIndex = some b ∧
                 id ∈ b) ∧
        ((d.released = true ∨ query hdl = .err ∨
            (query hdl = .ok .stopped ∧ d.autoRelease = true)) →
           ∀ t b, alookup t (cleanupInstances query st).tagIndex = some b →
             id ∉ b))) ∧
    (∀ t b, alookup t (cleanupInstances query st).tagIndex = some b →
       b ≠ []) := by
  have hI : InvL st := invL_of_wf_consistent st hWF hC
  have hM : InvL { st with
      instances := st.instances.map (fun p => (p.1, markT query p.2)) } :=
    invL_markPhase query st hI
  have hF : InvL (cleanupInstances query st) :=
    invL_cleanupInstances query st hI
  have hlook : ∀ j, alookup j (cleanupInstances query st).instances =
      if j ∈ st.instances.filterMap
          (fun p => if remB query p.2 then some p.1 else none)
      then none
      else (alookup j st.instances).map (markT query) := by
    intro j
    rw [cleanupInstances_eq]
    rw [alookup_foldRemove _ _ hM j]
    by_cases hj : j ∈ st.instances.filterMap
        (fun p => if remB query p.2 then some p.1 else none)
    · rw [if_pos hj, if_pos hj]
    · rw [if_neg hj, if_neg hj]
      exact alookup_map_values j (markT query) st.instances
  constructor
  · intro id d hdl hl hinst
    have hrem : (id ∈ st.instances.filterMap
          (fun p => if remB query p.2 then some p.1 else none)) ↔
        remB query d = true :=
      mem_remList query st.instances hI.ndI id d hl
    have hcond := remB_iff_cond query d hdl hinst
    refine ⟨?_, ?_, ?_⟩
    · rw [hlook id]
      by_cases hin : id ∈ st.instances.filterMap
          (fun p => if remB query p.2 then some p.1 else none)
      · rw [if_pos hin]
        exact ⟨fun _ => hcond.mp (hrem.mp hin), fun _ => rfl⟩
      · rw [if_neg hin, hl]
        constructor
        · intro hcontra
          simp at hcontra
        · intro hcnd
          exact absurd (hrem.mpr (hcond.mpr hcnd)) hin
    · intro hnot
      have hrB : remB query d = false := by
        cases hcase : remB query d
        · rfl
        · exact absurd (hcond.mp hcase) hnot
      have hin : id ∉ st.instances.filterMap
          (fun p => if remB query p.2 then some p.1 else none) :=
        fun hin => hnot (hcond.mp (hrem.mp hin))
      have hlk : alookup id (cleanupInstances query st).instances = some d := by
        rw [hlook id, if_neg hin, hl]
        rw [Option.map_some']
        rw [markT_of_remB_false query d hrB]
      exact ⟨hlk, fun t ht => hF.fwd id d hlk t ht⟩
    · intro hcnd t b hb hidb
      obtain ⟨d2, hd2, _⟩ := hF.bwd t b hb id hidb
      rw [hlook id, if_pos (hrem.mpr (hcond.mpr hcnd))] at hd2
      exact Option.noConfusion hd2
  · intro t b hb
    exact (hF.bucketWF t b hb).1

/-- Witness for claim C3 on a concrete registry: a stopped autoRelease
instance (id 2, handle 20) is removed, a playing one (id 1, handle 10)
survives with its data intact. -/
theorem C3_cleanup_removes_exactly_witness :
    alookup 2 (cleanupInstances
        (fun h => if h = 10 then .ok .playing else .ok .stopped)
        ⟨[(1, ⟨some 10, "e", ["a"], false, true⟩),
          (2, ⟨some 20, "e", ["a", "b"], false, true⟩),
          (3, ⟨some 30, "f", ["b"], false, false⟩),
          (4, ⟨some 40, "f", [], true, false⟩)],
         [("a", [1, 2]), ("b", [2, 3])], 5⟩).instances = none ∧
    alookup 1 (cleanupInstances
        (fun h => if h = 10 then .ok .playing else .ok .stopped)
        ⟨[(1, ⟨some 10, "e", ["a"], false, true⟩),
          (2, ⟨some 20, "e", ["a", "b"], false, true⟩),
          (3, ⟨some 30, "f", ["b"], false, false⟩),
          (4, ⟨some 40, "f", [], true, false⟩)],
         [("a", [1, 2]), ("b", [2, 3])], 5⟩).instances =
      some ⟨some 10, "e", ["a"], false, true⟩ := by
  have hmain := C3_cleanup_removes_exactly
    (fun h => if h = 10 then .ok .playing else .ok .stopped)
    ⟨[(1, ⟨some 10, "e", ["a"], false, true⟩),
      (2, ⟨some 20, "e", ["a", "b"], false, true⟩),
      (3, ⟨some 30, "f", ["b"], false, false⟩),
      (4, ⟨some 40, "f", [], true, false⟩)],
     [("a", [1, 2]), ("b", [2, 3])], 5⟩
    (by decide) (by decide) (by decide)
  exact ⟨(hmain.1 2 ⟨some 20, "e", ["a", "b"], false, true⟩ 20 rfl rfl).1.mpr
      (by decide),
    ((hmain.1 1 ⟨some 10, "e", ["a"], false, true⟩ 10 rfl rfl).2.1
      (by decide)).1⟩

/-! ## Characterizations of the selector match -/

theorem mem_liveMatching (name : Option String) (st : WrapperSt)
    (p : Nat × InstData) :
    p ∈ liveMatching name st ↔
      p ∈ st.instances ∧ p.2.released = false ∧
        nameMatches name p.2 = true := by
  unfold liveMatching
  rw [List.mem_filter]
  constructor
  · rintro ⟨h1, h2⟩
    rw [Bool.and_eq_true, Bool.not_eq_true'] at h2
    exact ⟨h1, h2.1, h2.2⟩
  · rintro ⟨h1, h2, h3⟩
    refine ⟨h1, ?_⟩
    rw [Bool.and_eq_true, Bool.not_eq_true']
    exact ⟨h2, h3⟩

theorem getMatching_num_eq (name : Option String) (idq : Nat)
    (st : WrapperSt) :
    getMatchingInstances name (.num idq) st =
      (match alookup idq st.instances with
       | some d =>
         if !d.released && nameMatches name d then [(idq, d)] else []
       | none => []) := rfl

theorem getMatching_null_eq (name : Option String) (st : WrapperSt) :
    getMatchingInstances name .null st = liveMatching name st := rfl

theorem getMatching_str_eq (name : Option String) (s : String)
    (st : WrapperSt) :
    getMatchingInstances name (.str s) st =
      if jsTrim s ≠ "" then
        (match alookup (jsTrim s) st.tagIndex with
         | some b =>
           b.filterMap (fun id =>
             match alookup id st.instances with
             | some d =>
               if !d.released && nameMatches name d then some (id, d)
               else none
             | none => none)
         | none => [])
      else liveMatching name st := rfl

theorem getMatching_str_blank (name : Option String) (s : String)
    (st : WrapperSt) (hs : jsTrim s = "") :
    getMatchingInstances name (.str s) st = liveMatching name st := by
  rw [getMatching_str_eq, if_neg (not_not_intro hs)]

theorem mem_getMatching_num (name : Option String) (idq : Nat)
    (st : WrapperSt) (p : Nat × InstData) :
    p ∈ getMatchingInstances name (.num idq) st ↔
      p.1 = idq ∧ alookup idq st.instances = some p.2 ∧
        p.2.released = false ∧ nameMatches name p.2 = true := by
  rw [getMatching_num_eq]
  cases heq : alookup idq st.instances with
  | none =>
    dsimp only
    simp only [List.not_mem_nil, false_iff]
    rintro ⟨h1, h2, h3, h4⟩
    exact Option.noConfusion h2
  | some d =>
    dsimp only
    by_cases hc : (!d.released && nameMatches name d) = true
    · rw [if_pos hc, List.mem_singleton]
      rw [Bool.and_eq_true, Bool.not_eq_true'] at hc
      constructor
      · intro hp
        subst hp
        exact ⟨rfl, rfl, hc.1, hc.2⟩
      · rintro ⟨h1, h2, _, _⟩
        have hd : d = p.2 := Option.some.inj h2
        calc p = (p.1, p.2) := (Prod.mk.eta).symm
        _ = (idq, d) := by rw [h1, hd]
    · rw [if_neg hc]
      simp only [List.not_mem_nil, false_iff]
      rintro ⟨h1, h2, h3, h4⟩
      have hd : d = p.2 := Option.some.inj h2
      rw [Bool.and_eq_true, Bool.not_eq_true'] at hc
      refine hc ?_
      rw [hd]
      exact ⟨h3, h4⟩

theorem length_getMatching_num (name : Option String) (idq : Nat)
    (st : WrapperSt) :
    (getMatchingInstances name (.num idq) st).length ≤ 1 := by
  rw [getMatching_num_eq]
  cases alookup idq st.instances with
  | none => simp
  | some d =>
    dsimp only
    by_cases hc : (!d.released && nameMatches name d) = true
    · rw [if_pos hc]
      simp
    · rw [if_neg hc]
      simp

theorem mem_getMatching_str (name : Option String) (s : String)
    (st : WrapperSt) (p : Nat × InstData) (hs : jsTrim s ≠ "") :
    p ∈ getMatchingInstances name (.str s) st ↔
      (∃ b, alookup (jsTrim s) st.tagIndex = some b ∧ p.1 ∈ b) ∧
        alookup p.1 st.instances = some p.2 ∧
        p.2.released = false ∧ nameMatches name p.2 = true := by
  rw [getMatching_str_eq, if_pos hs]
  cases heq : alookup (jsTrim s) st.tagIndex with
  | none =>
    dsimp only
    simp only [List.not_mem_nil, false_iff]
    rintro ⟨⟨b, hb, _⟩, _⟩
    exact Option.noConfusion hb
  | some b =>
    dsimp only
    rw [List.mem_filterMap]
    constructor
    · rintro ⟨idm, hidm, hf⟩
      cases heq2 : alookup idm st.instances with
      | none =>
        rw [heq2] at hf
        exact Option.noConfusion hf
      | some d =>
        rw [heq2] at hf
        dsimp only at hf
        by_cases hc : (!d.released && nameMatches name d) = true
        · rw [if_pos hc] at hf
          have hp : (idm, d) = p := Option.some.inj hf
          rw [Bool.and_eq_true, Bool.not_eq_true'] at hc
          subst hp
          exact ⟨⟨b, rfl, hidm⟩, heq2, hc.1, hc.2⟩
        · rw [if_neg hc] at hf
          exact Option.noConfusion hf
    · rintro ⟨⟨b2, hb2, hmem⟩, hlook, hrel, hname⟩
      have hbb : b = b2 := Option.some.inj hb2
      subst hbb
      refine ⟨p.1, hmem, ?_⟩
      rw [hlook]
      dsimp only
      have hcond : (!p.2.released && nameMatches name p.2) = true := by
        rw [Bool.and_eq_true, Bool.not_eq_true']
        exact ⟨hrel, hname⟩
      rw [if_pos hcond, Prod.mk.eta]

/-! ## Claim C6: the three-way selector dispatch -/

/-- Claim C6 counterexample.  The whitespace-only string " " is a
non-empty string, and no instance is ever registered under it (the tag
index here is empty), so the claimed dispatch must return the empty
list; the code instead falls through to the all-instances branch
(because `tag.trim()` is falsy) and returns the live instance. -/
theorem C6_counterexample_whitespace_tag :
    ((" " : String) ≠ "") ∧
    (⟨[(1, ⟨some 5, "e", [], false, false⟩)], [], 2⟩ :
        WrapperSt).tagIndex = [] ∧
    getMatchingInstances none (.str " ")
        ⟨[(1, ⟨some 5, "e", [], false, false⟩)], [], 2⟩ =
      [(1, ⟨some 5, "e", [], false, false⟩)] := by
  decide

/-- Claim C6 (amended): `_getMatchingInstances` dispatches on `tagOrId`:
numeric gives at most one result, only when that id is live and passes
the name filter; a string whose trim is non-empty is treated as a tag —
looked up trimmed — returning every live instance registered under it
that passes the name filter; an absent, empty, or whitespace-only string
returns every live instance passing the name filter. -/
theorem C6_amended_selector_dispatch (st : WrapperSt)
    (name : Option String) :
    (∀ idq : Nat, (getMatchingInstances name (.num idq) st).length ≤ 1 ∧
       ∀ p ∈ getMatchingInstances name (.num idq) st,
         p.1 = idq ∧ alookup idq st.instances = some p.2 ∧
           p.2.released = false ∧ nameMatches name p.2 = true) ∧
    (∀ s : String, jsTrim s ≠ "" → ∀ p : Nat × InstData,
       (p ∈ getMatchingInstances name (.str s) st ↔
         (∃ b, alookup (jsTrim s) st.tagIndex = some b ∧ p.1 ∈ b) ∧
           alookup p.1 st.instances = some p.2 ∧
           p.2.released = false ∧ nameMatches name p.2 = true)) ∧
    (∀ s : String, jsTrim s = "" → ∀ p : Nat × InstData,
       (p ∈ getMatchingInstances name (.str s) st ↔
         p ∈ st.instances ∧ p.2.released = false ∧
           nameMatches name p.2 = true)) ∧
    (∀ p : Nat × InstData,
       (p ∈ getMatchingInstances name .null st ↔
         p ∈ st.instances ∧ p.2.released = false ∧
           nameMatches name p.2 = true)) := by
  refine ⟨fun idq => ⟨length_getMatching_num name idq st, fun p hp =>
      (mem_getMatching_num name idq st p).mp hp⟩,
    fun s hs p => mem_getMatching_str name s st p hs,
    fun s hs p => ?_, fun p => ?_⟩
  · rw [getMatching_str_blank name s st hs]
    exact mem_liveMatching name st p
  · rw [getMatching_null_eq]
    exact mem_liveMatching name st p

/-- Witness for the amended claim C6: a tagged live instance is found
through its tag bucket. -/
theorem C6_amended_selector_dispatch_witness :
    (1, ⟨some 5, "e", ["t"], false, false⟩) ∈
      getMatchingInstances none (.str "t")
        ⟨[(1, ⟨some 5, "e", ["t"], false, false⟩)], [("t", [1])], 2⟩ :=
  ((C6_amended_selector_dispatch
      ⟨[(1, ⟨some 5, "e", ["t"], false, false⟩)], [("t", [1])], 2⟩
      none).2.1 "t" (by decide)
      (1, ⟨some 5, "e", ["t"], false, false⟩)).mpr
    ⟨⟨[1], by decide, by decide⟩, by decide, rfl, rfl⟩

/-! ## Claim C9: released instances are invisible -/

/-- Claim C9: an instance whose released flag is set is never returned
by any selector match, never listed by `getAllInstances`, and
`getInstanceInfo` answers `null` for it — including states where the id
is still physically present in the maps awaiting the next cleanup. -/
theorem C9_released_instances_invisible (st : WrapperSt) :
    (∀ name : Option String, ∀ tag : TagSel,
       ∀ p ∈ getMatchingInstances name tag st, p.2.released = false) ∧
    (∀ id ∈ getAllInstances st,
       ∃ d, alookup id st.instances = some d ∧ d.released = false) ∧
    (∀ id : Nat, ∀ d : InstData, alookup id st.instances = some d →
       d.released = true → getInstanceInfo id st = none) := by
  refine ⟨fun name tag p hp => ?_, fun id hid => ?_, fun id d hlook hrel => ?_⟩
  · cases tag with
    | num idq => exact ((mem_getMatching_num name idq st p).mp hp).2.2.1
    | str s =>
      by_cases hs : jsTrim s = ""
      · rw [getMatching_str_blank name s st hs] at hp
        exact ((mem_liveMatching name st p).mp hp).2.1
      · exact ((mem_getMatching_str name s st p hs).mp hp).2.2.1
    | null =>
      rw [getMatching_null_eq] at hp
      exact ((mem_liveMatching name st p).mp hp).2.1
  · unfold getAllInstances at hid
    rw [List.mem_filter] at hid
    obtain ⟨_, hpred⟩ := hid
    cases heq : alookup id st.instances with
    | none => rw [heq] at hpred; exact Bool.noConfusion hpred
    | some d =>
      rw [heq] at hpred
      rw [Bool.not_eq_true'] at hpred
      exact ⟨d, rfl, hpred⟩
  · unfold getInstanceInfo
    rw [hlook]
    dsimp only
    rw [if_pos hrel]

/-- Witness for claim C9: a released but still-present instance is
invisible to `getInstanceInfo`. -/
theorem C9_released_instances_invisible_witness :
    getInstanceInfo 1
        ⟨[(1, ⟨some 5, "e", [], true, false⟩)], [], 2⟩ = none :=
  (C9_released_instances_invisible
      ⟨[(1, ⟨some 5, "e", [], true, false⟩)], [], 2⟩).2.2 1
    ⟨some 5, "e", [], true, false⟩ rfl rfl

/-! ## Claim C2: concurrent loads of the same bank -/

/-- Claim C2 counterexample.  Two `FMODManager.loadBank` calls for the
same not-yet-loaded bank config, the second issued while the first is
awaiting its fetch (schedule: both pass the `loaded` check, the first
then completes, the second resumes): both callers return success, but
two `wrapper.loadBankMemory` engine load calls are made, refuting the
claimed "no second underlying engine load call / exactly one engine
load call". -/
theorem C2_counterexample_manager_double_engine_load :
    (mgrRunSched (⟨false, false, 0⟩, .start, .start)
        [false, true, false, false, true]).1.engineLoadCalls = 2 ∧
    (mgrRunSched (⟨false, false, 0⟩, .start, .start)
        [false, true, false, false, true]).2.1 = .done true ∧
    (mgrRunSched (⟨false, false, 0⟩, .start, .start)
        [false, true, false, false, true]).2.2 = .done true ∧
    (2 : Nat) ≠ 1 := by
  decide

/-- Claim C2 (amended): the coalescing the claim describes lives in
`FMODWrapper.loadBank` — a call that finds the bank record in the
loading state chains onto that record's in-flight promise (so every such
caller observes the same outcome) and reaches no engine load call;
`FMODManager.loadBank` (see the counterexample) deduplicates only
completed loads. -/
theorem C2_amended_wrapper_load_coalesces (banks : List (String × WBankData))
    (bankName : String) (ex : WBankData) (h1 : alookup bankName banks = some ex)
    (h2 : ex.loaded = false) (h3 : ex.loading = true) :
    wrapperLoadBankDispatch banks bankName = .chainTo ex.promiseId ∧
    wEngineLoadCalls (wrapperLoadBankDispatch banks bankName) = 0 := by
  unfold wrapperLoadBankDispatch
  rw [h1]
  simp [h2, h3, wEngineLoadCalls]

/-- Witness for the amended claim C2 at a concrete bank map holding one
in-flight record. -/
theorem C2_amended_wrapper_load_coalesces_witness :
    wrapperLoadBankDispatch [("Master.bank", ⟨none, false, true, 42⟩)]
        "Master.bank" = .chainTo 42 ∧
    wEngineLoadCalls
        (wrapperLoadBankDispatch [("Master.bank", ⟨none, false, true, 42⟩)]
          "Master.bank") = 0 :=
  C2_amended_wrapper_load_coalesces
    [("Master.bank", ⟨none, false, true, 42⟩)] "Master.bank"
    ⟨none, false, true, 42⟩ (by decide) rfl rfl

/-! ## Claim C4: the ERR_EVENT_ALREADY_LOADED branch -/

/-- Claim C4 counterexample.  A bank config with `loaded = false` whose
engine load reports already-loaded: `FMODManager.loadBank` returns the
bank without surfacing an error, but the record does NOT transition to
the loaded state — `loaded` stays `false`, refuting "the bank record
transitions to the Loaded state". -/
theorem C4_counterexample_already_loaded_stays_unloaded :
    (managerLoadBankResult ⟨false, none⟩ .alreadyLoaded).2 = .returnedBank ∧
    ¬ (managerLoadBankResult ⟨false, none⟩ .alreadyLoaded).1.loaded = true := by
  decide

/-- Claim C4 (amended): on `ERR_EVENT_ALREADY_LOADED` the operation is
treated as a non-error — the call logs, returns the bank record normally
and throws nothing — but the record is left entirely unchanged; in
particular its `loaded` flag is not set. -/
theorem C4_amended_already_loaded_benign (cfg : BankCfg) :
    managerLoadBankResult cfg .alreadyLoaded = (cfg, .returnedBank) := by
  unfold managerLoadBankResult
  by_cases h : cfg.loaded <;> simp [h]

/-! ## Claim C5: startEvent always instantiates -/

/-- Claim C5 counterexample.  A registry already holding a live instance
of event "e" tagged "t" (so the selector matches one instance), yet
`startEvent("e", "t", true)` still creates a second instance (new id 2,
identity map grows to two entries), refuting "creates a new instance
only when no live instance matches the selector". -/
theorem C5_counterexample_start_event_always_creates :
    (getMatchingInstances (some "e") (.str "t")
        ⟨[(1, ⟨some 5, "e", ["t"], false, false⟩)], [("t", [1])], 2⟩).length
      = 1 ∧
    (startEvent "e" "t" (some 7) true true
        ⟨[(1, ⟨some 5, "e", ["t"], false, false⟩)], [("t", [1])], 2⟩).1
      = some 2 ∧
    (startEvent "e" "t" (some 7) true true
        ⟨[(1, ⟨some 5, "e", ["t"], false, false⟩)],
          [("t", [1])], 2⟩).2.1.instances.length = 2 := by
  decide

/-- Claim C5 (amended): over a well-formed consistent registry,
`startEvent(name, tags, destroyWhenStopped)` unconditionally
instantiates a fresh instance carrying the given tag string (regardless
of any existing matches), sets `autoRelease = destroyWhenStopped` on
that new instance, and calls the engine `start()` exactly once, on that
instance alone; when `start()` fails the new instance is released and
removed — no id is returned, the new id is absent from the identity map
and appears in no tag-index bucket. -/
theorem C5_amended_start_event (st : WrapperSt) (name tags : String)
    (h : Nat) (dws : Bool) (hWF : WFst st) (hC : Consistent st) :
    (startEvent name tags (some h) true dws st).2.2 = [h] ∧
    (startEvent name tags (some h) false dws st).2.2 = [h] ∧
    (startEvent name tags (some h) true dws st).1 = some st.nextInstanceId ∧
    alookup st.nextInstanceId
        (startEvent name tags (some h) true dws st).2.1.instances =
      some ⟨some h, name, parseTags tags, false, dws⟩ ∧
    (startEvent name tags (some h) false dws st).1 = none ∧
    alookup st.nextInstanceId
        (startEvent name tags (some h) false dws st).2.1.instances = none ∧
    (∀ t b,
       alookup t (startEvent name tags (some h) false dws st).2.1.tagIndex =
         some b →
       st.nextInstanceId ∉ b) := by
  have hI : InvL st := invL_of_wf_consistent st hWF hC
  have h1 : InvL (instantiateEvent name tags (some h) st).2 :=
    invL_instantiateEvent name tags (some h) st hI
  have h2 : InvL { (instantiateEvent name tags (some h) st).2 with
      instances := aset st.nextInstanceId
        ⟨some h, name, parseTags tags, false, dws⟩
        (instantiateEvent name tags (some h) st).2.instances } := by
    refine invL_updateEntry _ h1 st.nextInstanceId
      ⟨some h, name, parseTags tags, false, false⟩
      ⟨some h, name, parseTags tags, false, dws⟩ ?_ rfl
    show alookup st.nextInstanceId
        (aset st.nextInstanceId
          ⟨some h, name, parseTags tags, false, false⟩ st.instances) =
      some ⟨some h, name, parseTags tags, false, false⟩
    exact alookup_aset_self _ _ _
  have heqF : (startEvent name tags (some h) false dws st).2.1 =
      removeInstance st.nextInstanceId
        { (instantiateEvent name tags (some h) st).2 with
          instances := aset st.nextInstanceId
            ⟨some h, name, parseTags tags, false, dws⟩
            (instantiateEvent name tags (some h) st).2.instances } := by
    unfold startEvent
    dsimp only [instantiateEvent]
    rw [alookup_aset_self]
    dsimp only
    rw [if_neg Bool.false_ne_true]
  have hn2 : alookup st.nextInstanceId
      (removeInstance st.nextInstanceId
        { (instantiateEvent name tags (some h) st).2 with
          instances := aset st.nextInstanceId
            ⟨some h, name, parseTags tags, false, dws⟩
            (instantiateEvent name tags (some h) st).2.instances }).instances
      = none := by
    rw [alookup_removeInstance _ _ _ h2, if_pos rfl]
  refine ⟨?_, ?_, ?_, ?_, ?_, ?_, ?_⟩
  · unfold startEvent instantiateEvent
    simp [alookup_aset_self]
  · unfold startEvent instantiateEvent
    simp [alookup_aset_self]
  · unfold startEvent instantiateEvent
    simp [alookup_aset_self]
  · unfold startEvent instantiateEvent
    simp [alookup_aset_self]
  · unfold startEvent instantiateEvent
    simp [alookup_aset_self]
  · rw [heqF]
    exact hn2
  · intro t b hb hmem
    have hF : InvL (removeInstance st.nextInstanceId
        { (instantiateEvent name tags (some h) st).2 with
          instances := aset st.nextInstanceId
            ⟨some h, name, parseTags tags, false, dws⟩
            (instantiateEvent name tags (some h) st).2.instances }) :=
      invL_removeInstance _ _ h2
    rw [heqF] at hb
    obtain ⟨d2, hd2, _⟩ := hF.bwd t b hb _ hmem
    rw [hn2] at hd2
    exact Option.noConfusion hd2

/-- Witness for the amended claim C5: a failed start from the fresh
registry leaves no id behind — the lookup of the would-be id answers
nothing. -/
theorem C5_amended_start_event_witness :
    (startEvent "e" "t" (some 7) false true initialWrapperSt).1 = none ∧
    alookup 1
        (startEvent "e" "t" (some 7) false true
          initialWrapperSt).2.1.instances = none :=
  ⟨(C5_amended_start_event initialWrapperSt "e" "t" 7 true
      (by decide) (by decide)).2.2.2.2.1,
   (C5_amended_start_event initialWrapperSt "e" "t" 7 true
      (by decide) (by decide)).2.2.2.2.2.1⟩

/-! ## Claim C7: listener validation -/

/-- Claim C7: with the system ready, `setListener3DAttributes` rejects —
producing no engine call and no throw — exactly when the listener id is
outside `[0, numListeners)` or some checked value (the twelve
attributes, plus the three attenuation values when the flag is set) is
non-finite, and otherwise forwards the id and values unmodified; and
`setNbListeners(nb)` records `nb` as the bound used by that check. -/
theorem C7_listener_validation (n id : Int) (a : Attr3D) :
    ((id < 0 ∨ n ≤ id) → setListener3DAttributes true n id a = .rejectedId) ∧
    (¬ (id < 0 ∨ n ≤ id) → (∃ v ∈ checkedValues a, v.finite = false) →
       setListener3DAttributes true n id a = .rejectedNonFinite) ∧
    (¬ (id < 0 ∨ n ≤ id) → (∀ v ∈ checkedValues a, v.finite = true) →
       setListener3DAttributes true n id a = .forwarded id a) ∧
    (∀ st : ListenerSt, ∀ nb : Int, st.hasWrapper = true →
       (setNbListeners st true nb).numListeners = nb) := by
  refine ⟨fun hid => ?_, fun hid hbad => ?_, fun hid hgood => ?_,
    fun st nb hw => ?_⟩
  · simp [setListener3DAttributes, hid]
  · have hany : (checkedValues a).any (fun v => !v.finite) = true := by
      rw [List.any_eq_true]
      obtain ⟨v, hv, hfin⟩ := hbad
      exact ⟨v, hv, by simp [hfin]⟩
    simp [setListener3DAttributes, hid, hany]
  · have hany : ¬ (checkedValues a).any (fun v => !v.finite) = true := by
      rw [List.any_eq_true]
      rintro ⟨v, hv, hfin⟩
      rw [Bool.not_eq_true'] at hfin
      rw [hgood v hv] at hfin
      exact Bool.noConfusion hfin
    simp [setListener3DAttributes, hid, hany]
  · simp [setNbListeners, hw]

/-- Witness for claim C7: the spec example — `setNbListeners(2)` then
listener id 5 — is rejected before any engine call, and an in-range id
with finite values is forwarded unmodified. -/
theorem C7_listener_validation_witness :
    setListener3DAttributes true
        (setNbListeners ⟨true, 1, false⟩ true 2).numListeners 5
        ⟨⟨true, 0⟩, ⟨true, 0⟩, ⟨true, 0⟩, ⟨true, 0⟩, ⟨true, 0⟩, ⟨true, 0⟩,
         ⟨true, 0⟩, ⟨true, 0⟩, ⟨true, 0⟩, ⟨true, 0⟩, ⟨true, 0⟩, ⟨true, 0⟩,
         false, ⟨true, 0⟩, ⟨true, 0⟩, ⟨true, 0⟩⟩ = .rejectedId ∧
    setListener3DAttributes true 2 1
        ⟨⟨true, 3⟩, ⟨true, 0⟩, ⟨true, 0⟩, ⟨true, 0⟩, ⟨true, 0⟩, ⟨true, 0⟩,
         ⟨true, 0⟩, ⟨true, 0⟩, ⟨true, 0⟩, ⟨true, 0⟩, ⟨true, 0⟩, ⟨true, 0⟩,
         false, ⟨true, 0⟩, ⟨true, 0⟩, ⟨true, 0⟩⟩ =
      .forwarded 1
        ⟨⟨true, 3⟩, ⟨true, 0⟩, ⟨true, 0⟩, ⟨true, 0⟩, ⟨true, 0⟩, ⟨true, 0⟩,
         ⟨true, 0⟩, ⟨true, 0⟩, ⟨true, 0⟩, ⟨true, 0⟩, ⟨true, 0⟩, ⟨true, 0⟩,
         false, ⟨true, 0⟩, ⟨true, 0⟩, ⟨true, 0⟩⟩ := by
  constructor
  · exact (C7_listener_validation
      (setNbListeners ⟨true, 1, false⟩ true 2).numListeners 5 _).1
      (by decide)
  · exact ((C7_listener_validation 2 1 _).2.2.1 (by decide) (by decide))

/-! ## Claim C8: waitForEventStop on an empty match -/

/-- Claim C8: `waitForEventStop` against a selector that matches no live
instance returns the already-resolved future (`Promise.resolve()`)
immediately instead of a wait — it cannot hang on an empty match set. -/
theorem C8_wait_for_stop_empty_resolves (st : WrapperSt)
    (name : Option String) (tag : TagSel)
    (h : getMatchingInstances name tag st = []) :
    waitForEventStop name tag st = .immediateResolve := by
  unfold waitForEventStop
  simp [h]

/-- Witness for claim C8 on the freshly constructed registry. -/
theorem C8_wait_for_stop_empty_resolves_witness :
    waitForEventStop none .null initialWrapperSt = .immediateResolve :=
  C8_wait_for_stop_empty_resolves initialWrapperSt none .null rfl

/-! ## Claim C10: suspend timestamps must strictly increase -/

/-- Claim C10: with the wrapper present, `setSuspended(suspended, time)`
is dropped — no engine call, recorded time unchanged — whenever `time`
is at most the last accepted time, and otherwise records `time` and
forwards the suspend/resume request; the recorded time starts at 0. -/
theorem C10_set_suspended_monotonic (st : SuspendSt) (suspended : Bool)
    (time : Int) (hw : st.hasWrapper = true) :
    (time ≤ st.lastSuspendTime → setSuspended st suspended time = (st, none)) ∧
    (st.lastSuspendTime < time →
       setSuspended st suspended time =
         ({ st with lastSuspendTime := time }, some suspended)) ∧
    initialSuspendSt.lastSuspendTime = 0 := by
  refine ⟨fun h => ?_, fun h => ?_, rfl⟩
  · simp [setSuspended, hw, h]
  · simp [setSuspended, hw, not_le.mpr h]

/-- Witness for claim C10: a fresh timestamp is recorded and forwarded,
replaying the same timestamp is dropped. -/
theorem C10_set_suspended_monotonic_witness :
    setSuspended ⟨true, 0⟩ true 5 = (⟨true, 5⟩, some true) ∧
    setSuspended ⟨true, 5⟩ false 5 = (⟨true, 5⟩, none) :=
  ⟨(C10_set_suspended_monotonic ⟨true, 0⟩ true 5 rfl).2.1 (by decide),
   (C10_set_suspended_monotonic ⟨true, 5⟩ false 5 rfl).1 (by decide)⟩

end FmodJS
